import Mathlib

/-! UTC offset parser (`utc_offset.go`).

A shallow embedding of the Go package `utcoffset` and of the standard-library
functions it calls (`regexp`, `strings`, `strconv`, `fmt`), followed by the
properties proved about it.

Conventions of the embedding:

* a Go `string` is a list of bytes (`GoString`); indexing and slicing are by byte;
* a Go run-time panic (index or slice out of range) is the result `none`;
* a Go `(int, error)` result is a pair whose second component is `none` for `nil`;
* Go `int` is the 64-bit two's complement integer, arithmetic results are wrapped
  by `wrapInt`.
-/

namespace UtcOffset

/-! Strings -/

/-- A Go `byte` (`uint8`). -/
abbrev Byte := Fin 256

/-- A Go `string`: an immutable sequence of bytes. -/
abbrev GoString := List Byte

/-- The bytes of an ASCII string literal of the source. -/
def ascii (s : String) : GoString :=
  s.toList.map fun c => Fin.ofNat c.toNat

/-- One byte of `strings.ToLower` on its ASCII path: `'A'..'Z'` get `'a' - 'A'` added. -/
def toLowerByte (c : Byte) : Byte :=
  if 65 ≤ c.val ∧ c.val ≤ 90 then Fin.ofNat (c.val + 32) else c

/-- Go's `strings.ToLower`. ASCII input is lowered byte by byte, exactly as the
library does. Bytes from 0x80 upwards are kept as they are: the library lowers the
runes they encode through the Unicode tables, which are not part of this model; no
rune outside ASCII lowers to an ASCII letter `u`, `t` or `c`, so the only use made
of the result, the comparison with `"utc"`, has the same outcome. -/
def ToLower (s : GoString) : GoString :=
  s.map toLowerByte

/-- Go's `strings.Split(s, sep)` for a separator of one byte (the source passes `":"`):
the pieces of `s` between the occurrences of `sep`, at least one piece. -/
def Split : GoString → Byte → List GoString
  | [], _ => [[]]
  | c :: t, sep =>
    if c = sep then [] :: Split t sep
    else
      match Split t sep with
      | [] => [[c]]
      | w :: ws => (c :: w) :: ws

/-! Machine integers -/

/-- Size in bits of Go's `int` (`strconv.IntSize`) on the 64-bit platforms. -/
def intSize : Nat := 64

/-- Two's complement wrap-around of an `int` result. -/
def wrapInt (z : Int) : Int :=
  (z + 2 ^ (intSize - 1)) % 2 ^ intSize - 2 ^ (intSize - 1)

/-! `strconv.Atoi` -/

/-- The two sentinel errors of `strconv`. -/
inductive ConvErr where
  | ErrSyntax
  | ErrRange
  deriving DecidableEq, Repr

/-- Go's `*strconv.NumError`. -/
structure NumError where
  Func : GoString
  Num : GoString
  Err : ConvErr
  deriving DecidableEq

/-- The function `syntaxError` of `strconv` with `fn = "Atoi"`. -/
def syntaxError (str : GoString) : NumError :=
  ⟨ascii "Atoi", str, ConvErr.ErrSyntax⟩

/-- The function `rangeError` of `strconv` with `fn = "Atoi"`. -/
def rangeError (str : GoString) : NumError :=
  ⟨ascii "Atoi", str, ConvErr.ErrRange⟩

/-- The digit loop of the fast path of `strconv.Atoi`:
`ch -= '0'; if ch > 9 { syntax error }; n = n*10 + int(ch)`, the subtraction being
a byte subtraction. `none` is the syntax error. The fast path runs on fewer than
19 bytes, so `n` stays below `10^18` and needs no wrap. -/
def atoiDigits : GoString → Int → Option Int
  | [], n => some n
  | ch :: rest, n =>
    let d := (ch.val + 256 - 48) % 256
    if d > 9 then none else atoiDigits rest (n * 10 + d)

/-- The digit loop of `strconv.ParseUint(s, 10, 0)`. A letter has a digit value of
at least 10, the base, and every other byte is no digit: both are syntax errors.
`n >= cutoff` and `n1 < n || n1 > maxVal` are the two overflow tests, the second one
read on the unbounded sum. -/
def parseUintLoop : GoString → Nat → Except ConvErr Nat
  | [], n => .ok n
  | c :: rest, n =>
    if 48 ≤ c.val ∧ c.val ≤ 57 then
      if n ≥ (2 ^ 64 - 1) / 10 + 1 then .error ConvErr.ErrRange
      else if n * 10 + (c.val - 48) > 2 ^ intSize - 1 then .error ConvErr.ErrRange
      else parseUintLoop rest (n * 10 + (c.val - 48))
    else .error ConvErr.ErrSyntax

/-- The slow path of `strconv.Atoi`: `ParseInt(s, 10, 0)` with the error renamed
to `Atoi`. On a range error the nearest representable value comes with the error. -/
def atoiSlow (s : GoString) : Int × Option NumError :=
  match s with
  | [] => (0, some (syntaxError s))
  | c :: t =>
    let neg : Bool := c = 45
    let body := if c = 43 ∨ c = 45 then t else s
    if body = [] then (0, some (syntaxError s))
    else
      match parseUintLoop body 0 with
      | .error ConvErr.ErrSyntax => (0, some (syntaxError s))
      | .error ConvErr.ErrRange =>
        if neg then (-(2 ^ (intSize - 1) : Int), some (rangeError s))
        else ((2 ^ (intSize - 1) : Int) - 1, some (rangeError s))
      | .ok un =>
        if ¬ neg ∧ un ≥ 2 ^ (intSize - 1) then
          ((2 ^ (intSize - 1) : Int) - 1, some (rangeError s))
        else if neg ∧ un > 2 ^ (intSize - 1) then
          (-(2 ^ (intSize - 1) : Int), some (rangeError s))
        else (if neg then -(un : Int) else (un : Int), none)

/-- Go's `strconv.Atoi` for a 64-bit `int`: the fast path for 1 to 18 bytes, the
slow path through `ParseInt` otherwise. -/
def Atoi (s : GoString) : Int × Option NumError :=
  if 0 < s.length ∧ s.length < 19 then
    match s with
    | [] => (0, some (syntaxError s))
    | c :: t =>
      let body := if c = 45 ∨ c = 43 then t else s
      if body.length < 1 then (0, some (syntaxError s))
      else
        match atoiDigits body 0 with
        | none => (0, some (syntaxError s))
        | some n => (if c = 45 then -n else n, none)
  else atoiSlow s

/-! Errors and `fmt.Errorf` -/

/-- An operand of `fmt.Errorf`: the source passes a string and the error of `Atoi`. -/
inductive Arg where
  | str (s : GoString)
  | err (e : NumError)
  deriving DecidableEq

/-- The error made by `fmt.Errorf(format, args...)`. The message is a pure function of
the format and the operands, so the value keeps both and `FmtError.Error` renders it. -/
structure FmtError where
  format : GoString
  args : List Arg
  deriving DecidableEq

/-- Go's `fmt.Errorf`. -/
def Errorf (format : String) (args : List Arg) : FmtError :=
  ⟨ascii format, args⟩

/-- The message of a sentinel error of `strconv`. -/
def ConvErr.Error : ConvErr → GoString
  | .ErrSyntax => ascii "invalid syntax"
  | .ErrRange => ascii "value out of range"

/-- The method `(*NumError).Error`:
`"strconv." + e.Func + ": parsing " + Quote(e.Num) + ": " + e.Err.Error()`.
`strconv.Quote` depends on the Unicode tables of the library and is a parameter. -/
def NumError.Error (quote : GoString → GoString) (e : NumError) : GoString :=
  ascii "strconv." ++ e.Func ++ ascii ": parsing " ++ quote e.Num ++ ascii ": " ++ e.Err.Error

/-- The text of one operand under the verb `%v`. -/
def Arg.render (quote : GoString → GoString) : Arg → GoString
  | .str s => s
  | .err e => e.Error quote

/-- Go's `fmt.Sprintf` for formats whose only verb is `%v` (byte 37, byte 118), as in
the source: each `%v` is replaced by the next operand, every other byte is copied. A
verb without operand prints `%!v(MISSING)`. -/
def Sprintf (quote : GoString → GoString) : GoString → List Arg → GoString
  | 37 :: 118 :: rest, a :: as => a.render quote ++ Sprintf quote rest as
  | 37 :: 118 :: rest, [] => ascii "%!v(MISSING)" ++ Sprintf quote rest []
  | c :: rest, as => c :: Sprintf quote rest as
  | [], _ => []

/-- The method `Error` of the error made by `fmt.Errorf`: the formatted message. -/
def FmtError.Error (quote : GoString → GoString) (e : FmtError) : GoString :=
  Sprintf quote e.format e.args

/-! Regular expressions

The part of Go's `regexp` that the three patterns of the source use. The matcher works
on bytes. Go's matcher works on the runes decoded from the UTF-8 text; every class of
the three patterns holds ASCII characters only (the case folding of `(?i)` maps `U`, `T`
and `C` to their lower-case letters and to nothing else), a byte below 0x80 is always a
rune of its own, and no other rune is in any class, so both matchers accept the same
strings. -/

/-- Syntax of the patterns. Capture groups do not change whether a text matches and
are left out. -/
inductive Regex where
  /-- The assertion `^`: at the beginning of the text. -/
  | bol : Regex
  /-- The assertion `$` (without the flag `m`): at the end of the text. -/
  | eol : Regex
  /-- One character of a class. -/
  | cls : (Byte → Bool) → Regex
  /-- Concatenation. -/
  | seq : Regex → Regex → Regex
  /-- The operator `?`. -/
  | opt : Regex → Regex
  /-- The repetition `{n}`. -/
  | rep : Nat → Regex → Regex

/-- A position of the matcher: the number of bytes before it and the text after it. -/
abbrev Cursor := Nat × GoString

/-- All positions at which a match of the pattern that starts at the given position can
end. -/
def Regex.step : Regex → Cursor → List Cursor
  | .bol, (i, s) => if i = 0 then [(i, s)] else []
  | .eol, (i, s) => if s = [] then [(i, s)] else []
  | .cls _, (_, []) => []
  | .cls p, (i, c :: t) => if p c then [(i + 1, t)] else []
  | .seq r₁ r₂, st => (r₁.step st).flatMap fun m => r₂.step m
  | .opt r, st => r.step st ++ [st]
  | .rep n r, st => Nat.iterate (fun sts => sts.flatMap fun m => r.step m) n [st]

/-- Go's `(*Regexp).MatchString`: whether the text contains a match of the pattern,
starting at any position. -/
def Regex.MatchString (re : Regex) (s : GoString) : Bool :=
  (List.range (s.length + 1)).any fun i => !(re.step (i, s.drop i)).isEmpty

/-- Concatenation of a list of patterns. -/
def Regex.cat : List Regex → Regex
  | [] => .rep 0 .bol
  | [r] => r
  | r :: rs => .seq r (Regex.cat rs)

/-- A literal character under the flag `(?i)`: it matches the bytes with the same
lower-case letter. -/
def Regex.chr (c : Byte) : Regex :=
  .cls fun b => toLowerByte b = toLowerByte c

/-- The class `[+-]`. -/
def Regex.sign : Regex :=
  .cls fun b => b = 43 ∨ b = 45

/-- The class `\d`: in Go the ASCII digits `0` to `9`. -/
def Regex.digit : Regex :=
  .cls fun b => 48 ≤ b.val ∧ b.val ≤ 57

/-- The common beginning `(?i)^(UTC)?[+-]` of the three patterns. -/
def Regex.utcSign : List Regex :=
  [.bol, .opt (Regex.cat [Regex.chr 85, Regex.chr 84, Regex.chr 67]), Regex.sign]

/-! The package `utcoffset` -/

/-- The pattern `(?i)^(UTC)?[+-](\d\d:\d\d)$`. It matches UTC+02:02 and +02:02. -/
def ColonSyntax : Regex :=
  Regex.cat (Regex.utcSign ++
    [Regex.digit, Regex.digit, Regex.chr 58, Regex.digit, Regex.digit, .eol])

/-- The pattern `(?i)^(UTC)?[+-](\d{4})$`. It matches UTC+0202 and +0202. -/
def HourMinuteSyntax : Regex :=
  Regex.cat (Regex.utcSign ++ [.rep 4 Regex.digit, .eol])

/-- The pattern `(?i)^(UTC)?[+-](\d\d)$`. It matches UTC+02 and +02. -/
def HourSyntax : Regex :=
  Regex.cat (Regex.utcSign ++ [Regex.digit, Regex.digit, .eol])

/-- Whether the given UTC offset has a valid format. -/
def IsValidUtcOffset (utcOffset : GoString) : Bool :=
  ColonSyntax.MatchString utcOffset ||
    HourMinuteSyntax.MatchString utcOffset ||
    HourSyntax.MatchString utcOffset

/-- The UTC offset without the word "UTC". The slice `utcOffset[0:3]` panics on fewer
than three bytes. -/
def stripUtcPrefix (utcOffset : GoString) : Option GoString :=
  if utcOffset.length < 3 then none
  else if ToLower (utcOffset.take 3) = ascii "utc" then some (utcOffset.drop 3)
  else some utcOffset

/-- The UTC offset without the sign, and the sign as 1 or -1. The index `utcOffset[0]`
panics on the empty string. -/
def stripSignPrefix (utcOffset : GoString) : Option (GoString × Int) :=
  match utcOffset with
  | [] => none
  | c :: rest =>
    if c = 43 then some (rest, 1)
    else if c = 45 then some (rest, -1)
    else some (utcOffset, 0)

/-- Hours and minutes, as decimal texts, to seconds. -/
def hoursAndMinutesToSecods (hoursStr minutesStr : GoString) : Int × Option NumError :=
  match Atoi hoursStr with
  | (_, some err) => (0, some err)
  | (hours, none) =>
    match Atoi minutesStr with
    | (_, some err) => (0, some err)
    | (minutes, none) => (wrapInt (hours * 60 * 60 + minutes * 60), none)

/-- Parser of the format ±[hh]:[mm] or UTC±[hh]:[mm]. The index `parts[1]` panics when
the text has no colon. -/
def parseColonSyntax (utcOffset : GoString) : Option (Int × Option FmtError) :=
  match stripUtcPrefix utcOffset with
  | none => none
  | some offset =>
    match stripSignPrefix offset with
    | none => none
    | some (offset, direction) =>
      match Split offset 58 with
      | hours :: minutes :: _ =>
        match hoursAndMinutesToSecods hours minutes with
        | (_, some err) =>
          some (0, some (Errorf "invalid UTC offset %v, %v" [.str utcOffset, .err err]))
        | (seconds, none) => some (wrapInt (seconds * direction), none)
      | _ => none

/-- Parser of the format ±[hh][mm] or UTC±[hh][mm]. The slice `offset[:2]` panics on
fewer than two bytes. -/
def parseHourMinuteSyntax (utcOffset : GoString) : Option (Int × Option FmtError) :=
  match stripUtcPrefix utcOffset with
  | none => none
  | some offset =>
    match stripSignPrefix offset with
    | none => none
    | some (offset, direction) =>
      if offset.length < 2 then none
      else
        match hoursAndMinutesToSecods (offset.take 2) (offset.drop 2) with
        | (_, some err) =>
          some (0, some (Errorf "invalid UTC offset %v, %v" [.str utcOffset, .err err]))
        | (seconds, none) => some (wrapInt (seconds * direction), none)

/-- Parser of the format ±[hh] or UTC±[hh]. -/
def parseHourSyntax (utcOffset : GoString) : Option (Int × Option FmtError) :=
  match stripUtcPrefix utcOffset with
  | none => none
  | some offset =>
    match stripSignPrefix offset with
    | none => none
    | some (offset, direction) =>
      match hoursAndMinutesToSecods offset (ascii "0") with
      | (_, some err) =>
        some (0, some (Errorf "invalid UTC offset %v, %v" [.str utcOffset, .err err]))
      | (seconds, none) => some (wrapInt (seconds * direction), none)

/-- The UTC offset in seconds. -/
def UtcOffsetSeconds (utcOffset : GoString) : Option (Int × Option FmtError) :=
  if ColonSyntax.MatchString utcOffset then parseColonSyntax utcOffset
  else if HourMinuteSyntax.MatchString utcOffset then parseHourMinuteSyntax utcOffset
  else if HourSyntax.MatchString utcOffset then parseHourSyntax utcOffset
  else some (0, some (Errorf "invalid UTC offset %v" [.str utcOffset]))

/-! Specification side: the shapes of the accepted texts, and `UtcOffsetSeconds` with a free
order of its patterns -/

/-- A sign character, `+` or `-`. -/
def isSign (b : Byte) : Prop := b = 43 ∨ b = 45

instance (b : Byte) : Decidable (isSign b) :=
  inferInstanceAs (Decidable (b = 43 ∨ b = 45))

/-- An ASCII digit, `0` to `9`. -/
def isDigit (b : Byte) : Prop := 48 ≤ b.val ∧ b.val ≤ 57

instance (b : Byte) : Decidable (isDigit b) :=
  inferInstanceAs (Decidable (48 ≤ b.val ∧ b.val ≤ 57))

/-- The optional prefix: nothing, or three letters that are "utc" when letter case is
ignored. -/
def isOptUtc (p : GoString) : Prop := p = [] ∨ (p.length = 3 ∧ ToLower p = ascii "utc")

/-- Two digits, a colon, two digits. -/
def isColonBody (t : GoString) : Prop :=
  ∃ a b c d, t = [a, b, 58, c, d] ∧ isDigit a ∧ isDigit b ∧ isDigit c ∧ isDigit d

/-- Four digits. -/
def isHourMinuteBody (t : GoString) : Prop :=
  ∃ a b c d, t = [a, b, c, d] ∧ isDigit a ∧ isDigit b ∧ isDigit c ∧ isDigit d

/-- Two digits. -/
def isHourBody (t : GoString) : Prop :=
  ∃ a b, t = [a, b] ∧ isDigit a ∧ isDigit b

/-- A text made of the optional prefix, one sign and a body of the given kind, and of
nothing else. -/
def hasShape (body : GoString → Prop) (x : GoString) : Prop :=
  ∃ p s t, x = p ++ s :: t ∧ isOptUtc p ∧ isSign s ∧ body t

/-- The pattern `^(UTC)?[+-]` followed by the pattern `B`. -/
def Regex.front (B : Regex) : Regex :=
  .seq .bol (.seq (.opt (.seq (Regex.chr 85) (.seq (Regex.chr 84) (Regex.chr 67))))
    (.seq Regex.sign B))

/-- The value of an ASCII digit. -/
def digitVal (b : Byte) : Int := (b.val : Int) - 48

/-- The direction that a sign stands for: 1 for `+`, -1 for `-`. -/
def signDirection (s : Byte) : Int := if s = 43 then 1 else -1

/-- The three syntaxes of the package. -/
inductive SyntaxKind where
  | colon
  | hourMinute
  | hour
  deriving DecidableEq, Repr

/-- The pattern of a syntax. -/
def SyntaxKind.pattern : SyntaxKind → Regex
  | .colon => ColonSyntax
  | .hourMinute => HourMinuteSyntax
  | .hour => HourSyntax

/-- The parser of a syntax. -/
def SyntaxKind.parse : SyntaxKind → GoString → Option (Int × Option FmtError)
  | .colon => parseColonSyntax
  | .hourMinute => parseHourMinuteSyntax
  | .hour => parseHourSyntax

/-- The function `UtcOffsetSeconds` with its patterns tried in a given order: the parser
of the first syntax whose pattern matches, and the error of no match when none does. -/
def UtcOffsetSecondsInOrder : List SyntaxKind → GoString → Option (Int × Option FmtError)
  | [], utcOffset => some (0, some (Errorf "invalid UTC offset %v" [.str utcOffset]))
  | k :: ks, utcOffset =>
    if k.pattern.MatchString utcOffset then k.parse utcOffset
    else UtcOffsetSecondsInOrder ks utcOffset

/-- A text of one of the three syntaxes: the optional prefix, one sign, and then two
digits, a colon and two digits, or four digits, or two digits; nothing else. -/
def isOffsetText (x : GoString) : Prop :=
  ∃ p s t, x = p ++ s :: t ∧ isOptUtc p ∧ isSign s ∧
    (isColonBody t ∨ isHourMinuteBody t ∨ isHourBody t)

/-- The number that a text of digits denotes in base 10, read after the digits whose
value is `n`. -/
def decimalValue : GoString → Nat → Nat
  | [], n => n
  | c :: rest, n => decimalValue rest (n * 10 + (c.val - 48))

/-- The digits of a literal: the text without its sign when it begins with one. -/
def literalDigits : GoString → GoString
  | [] => []
  | c :: t => if c = 43 ∨ c = 45 then t else c :: t

/-- A base-10 integer literal: an optional sign `+` or `-` and then one or more ASCII
digits. -/
def isIntLiteral (s : GoString) : Prop :=
  literalDigits s ≠ [] ∧ ∀ b ∈ literalDigits s, isDigit b

/-- The integer that a base-10 literal denotes. -/
def literalValue (s : GoString) : Int :=
  if s.head? = some 45 then -(decimalValue (literalDigits s) 0 : Int)
  else (decimalValue (literalDigits s) 0 : Int)

/-- An integer that Go's `int` can hold. -/
def fitsInt (z : Int) : Prop :=
  -(2 ^ (intSize - 1) : Int) ≤ z ∧ z ≤ 2 ^ (intSize - 1) - 1

/-- Go's `strconv.Quote` on a text of printable ASCII characters other than the double
quote and the backslash: the text between double quotes. -/
def quotePrintable (s : GoString) : GoString :=
  34 :: s ++ [34]

instance (s : GoString) : Decidable (isIntLiteral s) :=
  inferInstanceAs (Decidable (literalDigits s ≠ [] ∧ ∀ b ∈ literalDigits s, isDigit b))

instance (z : Int) : Decidable (fitsInt z) :=
  inferInstanceAs (Decidable (-(2 ^ (intSize - 1) : Int) ≤ z ∧ z ≤ 2 ^ (intSize - 1) - 1))

/-- The end of `ParseInt` after the digit loop gave `un`: the two range tests, then the
value with its sign. -/
def parseIntEnd (c : Byte) (un : Nat) (s : GoString) : Int × Option NumError :=
  if ¬ c = 45 ∧ un ≥ 2 ^ 63 then ((2 ^ 63 : Int) - 1, some (rangeError s))
  else if c = 45 ∧ un > 2 ^ 63 then (-(2 ^ 63 : Int), some (rangeError s))
  else (if c = 45 then -(un : Int) else (un : Int), none)

/-- A text that `strconv.Atoi` can convert: a base-10 literal whose value fits `int`. -/
def isConvertible (s : GoString) : Prop :=
  isIntLiteral s ∧ fitsInt (literalValue s)

instance (s : GoString) : Decidable (isConvertible s) :=
  inferInstanceAs (Decidable (isIntLiteral s ∧ fitsInt (literalValue s)))

/-- The hours and minutes texts that the parser of a syntax hands to the conversion, when
it gets that far: after the prefix and the sign, the first two parts of the split at the
colon, or the first two bytes and the rest, or the whole remainder and "0". -/
def SyntaxKind.fields (k : SyntaxKind) (utcOffset : GoString) : Option (GoString × GoString) :=
  match stripUtcPrefix utcOffset with
  | none => none
  | some offset =>
    match stripSignPrefix offset with
    | none => none
    | some (offset, _) =>
      match k with
      | .colon =>
        match Split offset 58 with
        | hours :: minutes :: _ => some (hours, minutes)
        | _ => none
      | .hourMinute => if offset.length < 2 then none else some (offset.take 2, offset.drop 2)
      | .hour => some (offset, ascii "0")

/-! The matcher, the evaluation of the parsers, and the properties of the package -/

theorem mem_step_bol (y st : Cursor) :
    y ∈ Regex.bol.step st ↔ st.1 = 0 ∧ y = st := by
  obtain ⟨i, s⟩ := st
  simp only [Regex.step]; split <;> simp_all

theorem mem_step_eol (y st : Cursor) :
    y ∈ Regex.eol.step st ↔ st.2 = [] ∧ y = st := by
  obtain ⟨i, s⟩ := st
  simp only [Regex.step]; split <;> simp_all

theorem mem_step_cls (p : Byte → Bool) (y st : Cursor) :
    y ∈ (Regex.cls p).step st ↔ ∃ c t, st.2 = c :: t ∧ p c = true ∧ y = (st.1 + 1, t) := by
  obtain ⟨i, s⟩ := st
  cases s with
  | nil => simp [Regex.step]
  | cons c t =>
    simp only [Regex.step]
    constructor
    · intro h
      split at h
      · exact ⟨c, t, rfl, by assumption, by simpa using h⟩
      · simp at h
    · rintro ⟨c', t', h1, h2, rfl⟩
      simp only [List.cons.injEq] at h1
      obtain ⟨rfl, rfl⟩ := h1
      simp [h2]

theorem mem_step_seq (r₁ r₂ : Regex) (y st : Cursor) :
    y ∈ (Regex.seq r₁ r₂).step st ↔ ∃ m, m ∈ r₁.step st ∧ y ∈ r₂.step m := by
  simp [Regex.step, List.mem_flatMap]

theorem mem_step_opt (r : Regex) (y st : Cursor) :
    y ∈ (Regex.opt r).step st ↔ y ∈ r.step st ∨ y = st := by
  simp [Regex.step]

theorem mem_step_rep_zero (r : Regex) (y st : Cursor) :
    y ∈ (Regex.rep 0 r).step st ↔ y = st := by
  simp [Regex.step]

theorem iterate_flatMap_append (f : Cursor → List Cursor) (n : Nat) (l₁ l₂ : List Cursor) :
    Nat.iterate (fun sts => sts.flatMap f) n (l₁ ++ l₂) =
      Nat.iterate (fun sts => sts.flatMap f) n l₁ ++ Nat.iterate (fun sts => sts.flatMap f) n l₂ := by
  induction n generalizing l₁ l₂ with
  | zero => rfl
  | succ n ih => simp only [Function.iterate_succ, Function.comp, List.flatMap_append, ih]

theorem mem_iterate_flatMap (f : Cursor → List Cursor) (n : Nat) (l : List Cursor) (y : Cursor) :
    y ∈ Nat.iterate (fun sts => sts.flatMap f) n l ↔
      ∃ m ∈ l, y ∈ Nat.iterate (fun sts => sts.flatMap f) n [m] := by
  induction l with
  | nil =>
    have : Nat.iterate (fun sts : List Cursor => sts.flatMap f) n [] = [] := by
      induction n with
      | zero => rfl
      | succ n ih => simpa [Function.iterate_succ] using ih
    simp [this]
  | cons a l ih =>
    have := iterate_flatMap_append f n [a] l
    simp only [List.singleton_append] at this
    simp [this, ih]

theorem mem_step_rep_succ (r : Regex) (n : Nat) (y st : Cursor) :
    y ∈ (Regex.rep (n + 1) r).step st ↔ ∃ m, m ∈ r.step st ∧ y ∈ (Regex.rep n r).step m := by
  simp only [Regex.step, Function.iterate_succ, Function.comp, List.flatMap_cons, List.flatMap_nil, List.append_nil]
  exact mem_iterate_flatMap _ n _ y

/-- A class followed by the rest of a pattern consumes one byte of the class. -/
theorem mem_step_cls_seq (p : Byte → Bool) (r : Regex) (y st : Cursor) :
    y ∈ (Regex.seq (Regex.cls p) r).step st ↔
      ∃ c t, st.2 = c :: t ∧ p c = true ∧ y ∈ r.step (st.1 + 1, t) := by
  rw [mem_step_seq]
  constructor
  · rintro ⟨m, hm, hy⟩
    obtain ⟨c, t, h1, h2, rfl⟩ := (mem_step_cls p m st).1 hm
    exact ⟨c, t, h1, h2, hy⟩
  · rintro ⟨c, t, h1, h2, hy⟩
    exact ⟨(st.1 + 1, t), (mem_step_cls p _ st).2 ⟨c, t, h1, h2, rfl⟩, hy⟩

theorem matchString_iff (re : Regex) (x : GoString) :
    re.MatchString x = true ↔ ∃ i, i ≤ x.length ∧ ∃ y, y ∈ re.step (i, x.drop i) := by
  simp only [Regex.MatchString, List.any_eq_true, List.mem_range, Bool.not_eq_true',
    List.isEmpty_eq_false, Nat.lt_succ_iff]
  constructor
  · rintro ⟨i, hi, h⟩
    exact ⟨i, hi, List.exists_mem_of_ne_nil _ h⟩
  · rintro ⟨i, hi, y, hy⟩
    exact ⟨i, hi, List.ne_nil_of_mem hy⟩

theorem toLower_utc_iff (u t c : Byte) :
    ToLower [u, t, c] = ascii "utc" ↔
      toLowerByte u = toLowerByte 85 ∧ toLowerByte t = toLowerByte 84 ∧
        toLowerByte c = toLowerByte 67 := by
  have h1 : toLowerByte 85 = 117 := by decide
  have h2 : toLowerByte 84 = 116 := by decide
  have h3 : toLowerByte 67 = 99 := by decide
  have h4 : ascii "utc" = [117, 116, 99] := by decide
  rw [h1, h2, h3, h4]
  simp [ToLower]

theorem cat_utcSign (r : Regex) (rs : List Regex) :
    Regex.cat (Regex.utcSign ++ r :: rs) = Regex.front (Regex.cat (r :: rs)) := rfl

theorem front_match_iff (B : Regex) (x : GoString) :
    (Regex.front B).MatchString x = true ↔
      ∃ p s t, x = p ++ s :: t ∧ isOptUtc p ∧ isSign s ∧ ∃ y, y ∈ B.step (p.length + 1, t) := by
  rw [matchString_iff]
  constructor
  · rintro ⟨i, -, y, hy⟩
    obtain ⟨m, hm, hy⟩ := (mem_step_seq _ _ _ _).1 hy
    obtain ⟨hi, rfl⟩ := (mem_step_bol _ _).1 hm
    simp only at hi
    subst hi
    obtain ⟨m₁, hm₁, hy⟩ := (mem_step_seq _ _ _ _).1 hy
    obtain ⟨s, t, hs, hsign, hy⟩ := (mem_step_cls_seq _ _ _ _).1 hy
    rcases (mem_step_opt _ _ _).1 hm₁ with h | rfl
    · obtain ⟨u, r₁, hu, hU, h⟩ := (mem_step_cls_seq _ _ _ _).1 h
      obtain ⟨v, r₂, hv, hT, h⟩ := (mem_step_cls_seq _ _ _ _).1 h
      obtain ⟨c, r₃, hc, hC, rfl⟩ := (mem_step_cls _ _ _).1 h
      simp only [List.drop_zero] at hu hv hc hs
      subst hc hv
      refine ⟨[u, v, c], s, t, ?_, Or.inr ⟨rfl, ?_⟩, ?_, y, hy⟩
      · rw [hu, ← hs]; rfl
      · rw [toLower_utc_iff]
        exact ⟨of_decide_eq_true hU, of_decide_eq_true hT, of_decide_eq_true hC⟩
      · exact (of_decide_eq_true hsign : s = 43 ∨ s = 45)
    · simp only [List.drop_zero] at hs
      exact ⟨[], s, t, hs, Or.inl rfl, (of_decide_eq_true hsign : s = 43 ∨ s = 45), y, hy⟩
  · rintro ⟨p, s, t, rfl, hp, hs, y, hy⟩
    refine ⟨0, Nat.zero_le _, y, ?_⟩
    rw [List.drop_zero]
    refine (mem_step_seq _ _ _ _).2 ⟨(0, p ++ s :: t), (mem_step_bol _ _).2 ⟨rfl, rfl⟩, ?_⟩
    refine (mem_step_seq _ _ _ _).2 ⟨(p.length, s :: t), ?_, ?_⟩
    · rcases hp with rfl | ⟨hlen, hutc⟩
      · exact (mem_step_opt _ _ _).2 (Or.inr rfl)
      · match p, hlen with
        | [u, v, c], _ =>
          rw [toLower_utc_iff] at hutc
          refine (mem_step_opt _ _ _).2 (Or.inl ?_)
          refine (mem_step_cls_seq _ _ _ _).2 ⟨u, _, rfl, decide_eq_true hutc.1, ?_⟩
          refine (mem_step_cls_seq _ _ _ _).2 ⟨v, _, rfl, decide_eq_true hutc.2.1, ?_⟩
          exact (mem_step_cls _ _ _).2 ⟨c, _, rfl, decide_eq_true hutc.2.2, rfl⟩
    · exact (mem_step_cls_seq _ _ _ _).2 ⟨s, t, rfl, decide_eq_true (show s = 43 ∨ s = 45 from hs), hy⟩

theorem mem_step_digit_seq (r : Regex) (y st : Cursor) :
    y ∈ (Regex.seq Regex.digit r).step st ↔
      ∃ c t, st.2 = c :: t ∧ isDigit c ∧ y ∈ r.step (st.1 + 1, t) := by
  unfold Regex.digit
  rw [mem_step_cls_seq]
  simp only [decide_eq_true_eq, isDigit]

theorem mem_step_digit (y st : Cursor) :
    y ∈ Regex.digit.step st ↔ ∃ c t, st.2 = c :: t ∧ isDigit c ∧ y = (st.1 + 1, t) := by
  unfold Regex.digit
  rw [mem_step_cls]
  simp only [decide_eq_true_eq, isDigit]

theorem toLowerByte_eq_colon (b : Byte) : toLowerByte b = toLowerByte 58 ↔ b = 58 := by
  have h : toLowerByte 58 = 58 := by decide
  rw [h]
  unfold toLowerByte
  split
  · rename_i hb
    constructor
    · intro h'
      have := congrArg Fin.val h'
      simp [Fin.ofNat] at this
      omega
    · rintro rfl
      exact absurd hb (by decide)
  · rfl

theorem colonBody_step_iff (k : Nat) (t : GoString) :
    (∃ y, y ∈ (Regex.cat [Regex.digit, Regex.digit, Regex.chr 58, Regex.digit, Regex.digit,
      Regex.eol]).step (k, t)) ↔ isColonBody t := by
  simp only [Regex.cat, mem_step_digit_seq, Regex.chr, mem_step_cls_seq, mem_step_eol,
    decide_eq_true_eq, toLowerByte_eq_colon]
  constructor
  · rintro ⟨y, a, t₁, h₁, ha, b, t₂, h₂, hb, c, t₃, h₃, rfl, d, t₄, h₄, hd, e, t₅, h₅, he, h₆, -⟩
    subst_vars
    exact ⟨a, b, d, e, rfl, ha, hb, hd, he⟩
  · rintro ⟨a, b, c, d, rfl, ha, hb, hc, hd⟩
    exact ⟨_, a, _, rfl, ha, b, _, rfl, hb, 58, _, rfl, rfl, c, _, rfl, hc, d, _, rfl, hd, rfl, rfl⟩

theorem hourBody_step_iff (k : Nat) (t : GoString) :
    (∃ y, y ∈ (Regex.cat [Regex.digit, Regex.digit, Regex.eol]).step (k, t)) ↔ isHourBody t := by
  simp only [Regex.cat, mem_step_digit_seq, mem_step_eol]
  constructor
  · rintro ⟨y, a, t₁, h₁, ha, b, t₂, h₂, hb, h₃, -⟩
    subst_vars
    exact ⟨a, b, rfl, ha, hb⟩
  · rintro ⟨a, b, rfl, ha, hb⟩
    exact ⟨_, a, _, rfl, ha, b, _, rfl, hb, rfl, rfl⟩

theorem mem_step_rep4_digit (y st : Cursor) :
    y ∈ (Regex.rep 4 Regex.digit).step st ↔
      ∃ a b c d t, st.2 = a :: b :: c :: d :: t ∧ isDigit a ∧ isDigit b ∧ isDigit c ∧
        isDigit d ∧ y = (st.1 + 4, t) := by
  simp only [mem_step_rep_succ, mem_step_rep_zero, mem_step_digit]
  constructor
  · rintro ⟨m₁, ⟨a, t₁, h₁, ha, rfl⟩, m₂, ⟨b, t₂, h₂, hb, rfl⟩, m₃, ⟨c, t₃, h₃, hc, rfl⟩, m₄,
      ⟨d, t₄, h₄, hd, rfl⟩, rfl⟩
    subst_vars
    exact ⟨a, b, c, d, t₄, h₁, ha, hb, hc, hd, rfl⟩
  · rintro ⟨a, b, c, d, t, h, ha, hb, hc, hd, rfl⟩
    exact ⟨_, ⟨a, _, h, ha, rfl⟩, _, ⟨b, _, rfl, hb, rfl⟩, _, ⟨c, _, rfl, hc, rfl⟩, _,
      ⟨d, _, rfl, hd, rfl⟩, rfl⟩

theorem hourMinuteBody_step_iff (k : Nat) (t : GoString) :
    (∃ y, y ∈ (Regex.cat [Regex.rep 4 Regex.digit, Regex.eol]).step (k, t)) ↔
      isHourMinuteBody t := by
  simp only [Regex.cat, mem_step_seq, mem_step_rep4_digit, mem_step_eol]
  constructor
  · rintro ⟨y, m, ⟨a, b, c, d, t', h, ha, hb, hc, hd, rfl⟩, h', -⟩
    subst_vars
    exact ⟨a, b, c, d, rfl, ha, hb, hc, hd⟩
  · rintro ⟨a, b, c, d, rfl, ha, hb, hc, hd⟩
    exact ⟨_, _, ⟨a, b, c, d, [], rfl, ha, hb, hc, hd, rfl⟩, rfl, rfl⟩

theorem colonSyntax_match_iff (x : GoString) :
    ColonSyntax.MatchString x = true ↔ hasShape isColonBody x := by
  unfold ColonSyntax
  rw [cat_utcSign, front_match_iff]
  simp only [colonBody_step_iff, hasShape]

theorem hourMinuteSyntax_match_iff (x : GoString) :
    HourMinuteSyntax.MatchString x = true ↔ hasShape isHourMinuteBody x := by
  unfold HourMinuteSyntax
  rw [cat_utcSign, front_match_iff]
  simp only [hourMinuteBody_step_iff, hasShape]

theorem hourSyntax_match_iff (x : GoString) :
    HourSyntax.MatchString x = true ↔ hasShape isHourBody x := by
  unfold HourSyntax
  rw [cat_utcSign, front_match_iff]
  simp only [hourBody_step_iff, hasShape]

theorem isDigit_ne_minus {c : Byte} (h : isDigit c) : ¬ c = 45 := by
  rintro rfl
  exact absurd h (by decide)

theorem isDigit_ne_plus {c : Byte} (h : isDigit c) : ¬ c = 43 := by
  rintro rfl
  exact absurd h (by decide)

theorem isDigit_ne_colon {c : Byte} (h : isDigit c) : ¬ c = 58 := by
  rintro rfl
  exact absurd h (by decide)

theorem digitVal_range {c : Byte} (h : isDigit c) : 0 ≤ digitVal c ∧ digitVal c ≤ 9 := by
  unfold isDigit at h
  unfold digitVal
  omega

theorem atoiDigits_cons {c : Byte} (h : isDigit c) (rest : GoString) (n : Int) :
    atoiDigits (c :: rest) n = atoiDigits rest (n * 10 + digitVal c) := by
  unfold isDigit at h
  have hd : (c.val + 256 - 48) % 256 = c.val - 48 := by omega
  have hv : ((c.val - 48 : Nat) : Int) = digitVal c := by
    unfold digitVal
    omega
  simp only [atoiDigits, hd]
  rw [if_neg (by omega), hv]

theorem Atoi_two_digits {a b : Byte} (ha : isDigit a) (hb : isDigit b) :
    Atoi [a, b] = (10 * digitVal a + digitVal b, none) := by
  have h : atoiDigits [a, b] 0 = some (10 * digitVal a + digitVal b) := by
    rw [atoiDigits_cons ha, atoiDigits_cons hb, atoiDigits]
    congr 1
    ring
  simp [Atoi, isDigit_ne_plus ha, isDigit_ne_minus ha, h]

theorem Atoi_zero : Atoi (ascii "0") = (0, none) := by decide

theorem wrapInt_small {z : Int} (h : -362340 ≤ z ∧ z ≤ 362340) : wrapInt z = z := by
  unfold wrapInt intSize
  norm_num
  omega

theorem hoursAndMinutesToSecods_digits {a b c d : Byte} (ha : isDigit a) (hb : isDigit b)
    (hc : isDigit c) (hd : isDigit d) :
    hoursAndMinutesToSecods [a, b] [c, d] =
      ((10 * digitVal a + digitVal b) * 3600 + (10 * digitVal c + digitVal d) * 60, none) := by
  have h1 := digitVal_range ha
  have h2 := digitVal_range hb
  have h3 := digitVal_range hc
  have h4 := digitVal_range hd
  simp only [hoursAndMinutesToSecods, Atoi_two_digits ha hb, Atoi_two_digits hc hd]
  rw [wrapInt_small (by omega)]
  congr 1
  ring

theorem hoursAndMinutesToSecods_hour {a b : Byte} (ha : isDigit a) (hb : isDigit b) :
    hoursAndMinutesToSecods [a, b] (ascii "0") =
      ((10 * digitVal a + digitVal b) * 3600, none) := by
  have h1 := digitVal_range ha
  have h2 := digitVal_range hb
  simp only [hoursAndMinutesToSecods, Atoi_two_digits ha hb, Atoi_zero]
  rw [wrapInt_small (by omega)]
  congr 1
  ring

theorem Split_colon_body {a b c d : Byte} (ha : isDigit a) (hb : isDigit b)
    (hc : isDigit c) (hd : isDigit d) :
    Split [a, b, 58, c, d] 58 = [[a, b], [c, d]] := by
  simp [Split, isDigit_ne_colon ha, isDigit_ne_colon hb, isDigit_ne_colon hc,
    isDigit_ne_colon hd]

theorem toLowerByte_sign {s : Byte} (h : isSign s) : toLowerByte s = s := by
  rcases h with rfl | rfl <;> decide

theorem isOptUtc_cases {p : GoString} (h : isOptUtc p) :
    p = [] ∨ ∃ u v c, p = [u, v, c] ∧ toLowerByte u = 117 ∧ toLowerByte v = 116 ∧
      toLowerByte c = 99 := by
  rcases h with rfl | ⟨hlen, hutc⟩
  · exact Or.inl rfl
  · match p, hlen with
    | [u, v, c], _ =>
      have h4 : ascii "utc" = [117, 116, 99] := by decide
      rw [h4] at hutc
      simp only [ToLower, List.map_cons, List.map_nil, List.cons.injEq, and_true] at hutc
      exact Or.inr ⟨u, v, c, rfl, hutc⟩

theorem stripUtcPrefix_shape {p : GoString} {s : Byte} (hp : isOptUtc p) (hs : isSign s)
    (a b : Byte) (t : GoString) :
    stripUtcPrefix (p ++ s :: a :: b :: t) = some (s :: a :: b :: t) := by
  have h4 : ascii "utc" = [117, 116, 99] := by decide
  rcases isOptUtc_cases hp with rfl | ⟨u, v, c, rfl, hu, hv, hc⟩
  · have : ¬ toLowerByte s = 117 := by
      rw [toLowerByte_sign hs]
      rcases hs with rfl | rfl <;> decide
    simp [stripUtcPrefix, ToLower, h4, this]
  · simp [stripUtcPrefix, ToLower, h4, hu, hv, hc]

theorem stripSignPrefix_sign {s : Byte} (hs : isSign s) (t : GoString) :
    stripSignPrefix (s :: t) = some (t, signDirection s) := by
  rcases hs with rfl | rfl <;> simp [stripSignPrefix, signDirection]

theorem isSign_not_u {s : Byte} (hs : isSign s) : ¬ toLowerByte s = 117 := by
  rcases hs with rfl | rfl <;> decide

/-- A text has at most one reading as prefix, sign and body. -/
theorem shape_decomp_unique {p p' : GoString} {s s' : Byte} {t t' : GoString}
    (hp : isOptUtc p) (hp' : isOptUtc p') (hs : isSign s) (hs' : isSign s')
    (h : p ++ s :: t = p' ++ s' :: t') : p = p' ∧ s = s' ∧ t = t' := by
  rcases isOptUtc_cases hp with rfl | ⟨u, v, c, rfl, hu, -, -⟩ <;>
    rcases isOptUtc_cases hp' with rfl | ⟨u', v', c', rfl, hu', -, -⟩
  · simpa using h
  · simp only [List.nil_append, List.cons_append, List.cons.injEq] at h
    exact absurd (h.1 ▸ hu') (isSign_not_u hs)
  · simp only [List.nil_append, List.cons_append, List.cons.injEq] at h
    exact absurd (h.1 ▸ hu) (isSign_not_u hs')
  · simp only [List.nil_append, List.cons_append, List.cons.injEq] at h
    obtain ⟨rfl, rfl, rfl, rfl, rfl⟩ := h
    exact ⟨rfl, rfl, rfl⟩

theorem colonBody_not_hourMinuteBody {t : GoString} (h : isColonBody t) :
    ¬ isHourMinuteBody t := by
  rintro ⟨a', b', c', d', h', -⟩
  obtain ⟨a, b, c, d, rfl, -⟩ := h
  simp at h'

theorem colonBody_not_hourBody {t : GoString} (h : isColonBody t) : ¬ isHourBody t := by
  rintro ⟨a', b', h', -⟩
  obtain ⟨a, b, c, d, rfl, -⟩ := h
  simp at h'

theorem hourMinuteBody_not_hourBody {t : GoString} (h : isHourMinuteBody t) :
    ¬ isHourBody t := by
  rintro ⟨a', b', h', -⟩
  obtain ⟨a, b, c, d, rfl, -⟩ := h
  simp at h'

/-- Two kinds of body that exclude each other give shapes that exclude each other. -/
theorem hasShape_exclusive {B₁ B₂ : GoString → Prop} (hB : ∀ t, B₁ t → ¬ B₂ t)
    {x : GoString} (h₁ : hasShape B₁ x) : ¬ hasShape B₂ x := by
  rintro ⟨p', s', t', h', hp', hs', hb'⟩
  obtain ⟨p, s, t, rfl, hp, hs, hb⟩ := h₁
  obtain ⟨-, -, rfl⟩ := shape_decomp_unique hp hp' hs hs' h'
  exact hB _ hb hb'

theorem signDirection_cases {s : Byte} (hs : isSign s) :
    signDirection s = 1 ∨ signDirection s = -1 := by
  rcases hs with rfl | rfl
  · exact Or.inl (by decide)
  · exact Or.inr (by decide)

theorem wrapInt_mul_direction {s : Byte} (hs : isSign s) {v : Int}
    (hv : 0 ≤ v ∧ v ≤ 362340) : wrapInt (v * signDirection s) = signDirection s * v := by
  rcases signDirection_cases hs with h | h <;> rw [h]
  · rw [wrapInt_small (by omega)]; ring
  · rw [wrapInt_small (by omega)]; ring

theorem seconds_range {a b c d : Byte} (ha : isDigit a) (hb : isDigit b)
    (hc : isDigit c) (hd : isDigit d) :
    0 ≤ (10 * digitVal a + digitVal b) * 3600 + (10 * digitVal c + digitVal d) * 60 ∧
      (10 * digitVal a + digitVal b) * 3600 + (10 * digitVal c + digitVal d) * 60 ≤ 362340 := by
  have h1 := digitVal_range ha
  have h2 := digitVal_range hb
  have h3 := digitVal_range hc
  have h4 := digitVal_range hd
  omega

theorem hour_seconds_range {a b : Byte} (ha : isDigit a) (hb : isDigit b) :
    0 ≤ (10 * digitVal a + digitVal b) * 3600 ∧
      (10 * digitVal a + digitVal b) * 3600 ≤ 362340 := by
  have h1 := digitVal_range ha
  have h2 := digitVal_range hb
  omega

/-- The result of `UtcOffsetSeconds` on a text of the colon syntax. -/
theorem eval_colon {p : GoString} {s a b c d : Byte} (hp : isOptUtc p) (hs : isSign s)
    (ha : isDigit a) (hb : isDigit b) (hc : isDigit c) (hd : isDigit d) :
    UtcOffsetSeconds (p ++ s :: [a, b, 58, c, d]) =
      some (signDirection s *
        ((10 * digitVal a + digitVal b) * 3600 + (10 * digitVal c + digitVal d) * 60), none) := by
  have hm : ColonSyntax.MatchString (p ++ s :: [a, b, 58, c, d]) = true :=
    (colonSyntax_match_iff _).2 ⟨p, s, _, rfl, hp, hs, a, b, c, d, rfl, ha, hb, hc, hd⟩
  simp only [UtcOffsetSeconds, hm, if_true, parseColonSyntax, stripUtcPrefix_shape hp hs,
    stripSignPrefix_sign hs, Split_colon_body ha hb hc hd,
    hoursAndMinutesToSecods_digits ha hb hc hd,
    wrapInt_mul_direction hs (seconds_range ha hb hc hd)]

/-- The result of `UtcOffsetSeconds` on a text of the hour-minute syntax. -/
theorem eval_hourMinute {p : GoString} {s a b c d : Byte} (hp : isOptUtc p) (hs : isSign s)
    (ha : isDigit a) (hb : isDigit b) (hc : isDigit c) (hd : isDigit d) :
    UtcOffsetSeconds (p ++ s :: [a, b, c, d]) =
      some (signDirection s *
        ((10 * digitVal a + digitVal b) * 3600 + (10 * digitVal c + digitVal d) * 60), none) := by
  have hsh : hasShape isHourMinuteBody (p ++ s :: [a, b, c, d]) :=
    ⟨p, s, _, rfl, hp, hs, a, b, c, d, rfl, ha, hb, hc, hd⟩
  have hm : HourMinuteSyntax.MatchString (p ++ s :: [a, b, c, d]) = true :=
    (hourMinuteSyntax_match_iff _).2 hsh
  have hn : ColonSyntax.MatchString (p ++ s :: [a, b, c, d]) = false := by
    rw [Bool.eq_false_iff, Ne, colonSyntax_match_iff]
    exact fun h => hasShape_exclusive (fun _ => colonBody_not_hourMinuteBody) h hsh
  simp only [UtcOffsetSeconds, hm, hn, if_true, parseHourMinuteSyntax,
    stripUtcPrefix_shape hp hs, stripSignPrefix_sign hs, List.take, List.drop,
    hoursAndMinutesToSecods_digits ha hb hc hd,
    wrapInt_mul_direction hs (seconds_range ha hb hc hd)]
  simp

/-- The result of `UtcOffsetSeconds` on a text of the hour syntax. -/
theorem eval_hour {p : GoString} {s a b : Byte} (hp : isOptUtc p) (hs : isSign s)
    (ha : isDigit a) (hb : isDigit b) :
    UtcOffsetSeconds (p ++ s :: [a, b]) =
      some (signDirection s * ((10 * digitVal a + digitVal b) * 3600), none) := by
  have hsh : hasShape isHourBody (p ++ s :: [a, b]) := ⟨p, s, _, rfl, hp, hs, a, b, rfl, ha, hb⟩
  have hm : HourSyntax.MatchString (p ++ s :: [a, b]) = true := (hourSyntax_match_iff _).2 hsh
  have hn : ColonSyntax.MatchString (p ++ s :: [a, b]) = false := by
    rw [Bool.eq_false_iff, Ne, colonSyntax_match_iff]
    exact fun h => hasShape_exclusive (fun _ => colonBody_not_hourBody) h hsh
  have hn' : HourMinuteSyntax.MatchString (p ++ s :: [a, b]) = false := by
    rw [Bool.eq_false_iff, Ne, hourMinuteSyntax_match_iff]
    exact fun h => hasShape_exclusive (fun _ => hourMinuteBody_not_hourBody) h hsh
  simp only [UtcOffsetSeconds, hm, hn, hn', if_true, parseHourSyntax,
    stripUtcPrefix_shape hp hs, stripSignPrefix_sign hs,
    hoursAndMinutesToSecods_hour ha hb,
    wrapInt_mul_direction hs (hour_seconds_range ha hb)]
  simp

theorem isValid_iff_shapes (x : GoString) :
    IsValidUtcOffset x = true ↔
      hasShape isColonBody x ∨ hasShape isHourMinuteBody x ∨ hasShape isHourBody x := by
  simp only [IsValidUtcOffset, Bool.or_eq_true, colonSyntax_match_iff,
    hourMinuteSyntax_match_iff, hourSyntax_match_iff, or_assoc]

theorem isValid_iff_offsetText (x : GoString) : IsValidUtcOffset x = true ↔ isOffsetText x := by
  rw [isValid_iff_shapes]
  constructor
  · rintro (⟨p, s, t, h, hp, hs, hb⟩ | ⟨p, s, t, h, hp, hs, hb⟩ | ⟨p, s, t, h, hp, hs, hb⟩)
    · exact ⟨p, s, t, h, hp, hs, Or.inl hb⟩
    · exact ⟨p, s, t, h, hp, hs, Or.inr (Or.inl hb)⟩
    · exact ⟨p, s, t, h, hp, hs, Or.inr (Or.inr hb)⟩
  · rintro ⟨p, s, t, h, hp, hs, hb | hb | hb⟩
    · exact Or.inl ⟨p, s, t, h, hp, hs, hb⟩
    · exact Or.inr (Or.inl ⟨p, s, t, h, hp, hs, hb⟩)
    · exact Or.inr (Or.inr ⟨p, s, t, h, hp, hs, hb⟩)

/-- The result of `UtcOffsetSeconds` on a text that no pattern matches. -/
theorem eval_invalid {x : GoString} (h : IsValidUtcOffset x = false) :
    UtcOffsetSeconds x = some (0, some (Errorf "invalid UTC offset %v" [.str x])) := by
  simp only [IsValidUtcOffset, Bool.or_eq_false_iff] at h
  simp only [UtcOffsetSeconds, h.1.1, h.1.2, h.2, Bool.false_eq_true, if_false]

/-- The result of `UtcOffsetSeconds` on a text of one of the three syntaxes: no error, and
the seconds of its hours and minutes with the sign of the text. -/
theorem eval_offsetText {t : GoString}
    (hb : isColonBody t ∨ isHourMinuteBody t ∨ isHourBody t) :
    ∃ v : Int, 0 ≤ v ∧ v ≤ 362340 ∧
      ∀ p' s', isOptUtc p' → isSign s' →
        UtcOffsetSeconds (p' ++ s' :: t) = some (signDirection s' * v, none) := by
  rcases hb with ⟨a, b, c, d, rfl, ha, hb, hc, hd⟩ | ⟨a, b, c, d, rfl, ha, hb, hc, hd⟩ |
    ⟨a, b, rfl, ha, hb⟩
  · exact ⟨_, (seconds_range ha hb hc hd).1, (seconds_range ha hb hc hd).2,
      fun _ _ hp' hs' => eval_colon hp' hs' ha hb hc hd⟩
  · exact ⟨_, (seconds_range ha hb hc hd).1, (seconds_range ha hb hc hd).2,
      fun _ _ hp' hs' => eval_hourMinute hp' hs' ha hb hc hd⟩
  · exact ⟨_, (hour_seconds_range ha hb).1, (hour_seconds_range ha hb).2,
      fun _ _ hp' hs' => eval_hour hp' hs' ha hb⟩

/-- The message of the error of no match. -/
theorem noMatch_message (quote : GoString → GoString) (x : GoString) :
    (Errorf "invalid UTC offset %v" [.str x]).Error quote = ascii "invalid UTC offset " ++ x := by
  have h : (Errorf "invalid UTC offset %v" [.str x]).Error quote =
      ascii "invalid UTC offset " ++ (x ++ []) := rfl
  rw [h, List.append_nil]

/-- Claim C1. `IsValidUtcOffset` accepts exactly the texts that consist of an optional
three-letter prefix equal to "utc" up to letter case, one sign `+` or `-`, and then two
digits, a colon and two digits, or four digits, or two digits, with nothing before or
after. -/
theorem isValidUtcOffset_iff (x : GoString) :
    IsValidUtcOffset x = true ↔
      ∃ p s t, x = p ++ s :: t ∧
        (p = [] ∨ (p.length = 3 ∧ ToLower p = ascii "utc")) ∧
        (s = 43 ∨ s = 45) ∧
        ((∃ a b c d, t = [a, b, 58, c, d] ∧ isDigit a ∧ isDigit b ∧ isDigit c ∧ isDigit d) ∨
          (∃ a b c d, t = [a, b, c, d] ∧ isDigit a ∧ isDigit b ∧ isDigit c ∧ isDigit d) ∨
          (∃ a b, t = [a, b] ∧ isDigit a ∧ isDigit b)) :=
  isValid_iff_offsetText x

/-- Claim C2. Validity and parseability agree: `IsValidUtcOffset x` is true exactly when
`UtcOffsetSeconds x` returns a value and no error. -/
theorem isValid_iff_no_error (x : GoString) :
    IsValidUtcOffset x = true ↔ ∃ v, UtcOffsetSeconds x = some (v, none) := by
  constructor
  · intro h
    obtain ⟨p, s, t, rfl, hp, hs, hb⟩ := (isValid_iff_offsetText x).1 h
    obtain ⟨v, -, -, hv⟩ := eval_offsetText hb
    exact ⟨_, hv p s hp hs⟩
  · rintro ⟨v, hv⟩
    by_contra h
    rw [eval_invalid (by simpa using h)] at hv
    simp at hv

/-- Claim C3. On a text that matches none of the three syntaxes `UtcOffsetSeconds` returns
0 seconds and an error whose message is "invalid UTC offset " followed by the text itself,
and nothing more. -/
theorem invalid_returns_zero_and_message (x : GoString) (h : IsValidUtcOffset x = false) :
    ∃ e, UtcOffsetSeconds x = some (0, some e) ∧
      ∀ quote, e.Error quote = ascii "invalid UTC offset " ++ x := by
  refine ⟨_, eval_invalid h, fun quote => ?_⟩
  exact noMatch_message quote x

theorem invalid_returns_zero_and_message_witness :
    IsValidUtcOffset (ascii "+2:02") = false ∧
      ∃ e, UtcOffsetSeconds (ascii "+2:02") = some (0, some e) ∧
        ∀ quote, e.Error quote = ascii "invalid UTC offset " ++ ascii "+2:02" :=
  ⟨by decide, invalid_returns_zero_and_message (ascii "+2:02") (by decide)⟩

/-- Claim C4. Colon syntax: with an optional prefix `p` (empty, or "UTC" in any letter
case), a sign `s` and digits `a b c d`, `UtcOffsetSeconds (p ++ s ++ "ab:cd")` returns no
error and the value `direction * ((10a+b)*3600 + (10c+d)*60)`, the direction being 1
for `+` and -1 for `-`. -/
theorem colon_syntax_seconds (p : GoString) (s a b c d : Byte)
    (hp : p = [] ∨ (p.length = 3 ∧ ToLower p = ascii "utc")) (hs : s = 43 ∨ s = 45)
    (ha : isDigit a) (hb : isDigit b) (hc : isDigit c) (hd : isDigit d) :
    UtcOffsetSeconds (p ++ s :: [a, b, 58, c, d]) =
      some ((if s = 43 then 1 else -1) *
        ((10 * digitVal a + digitVal b) * 3600 + (10 * digitVal c + digitVal d) * 60), none) :=
  eval_colon hp hs ha hb hc hd

theorem colon_syntax_seconds_witness :
    UtcOffsetSeconds (ascii "uTc" ++ 45 :: [48, 50, 58, 51, 52]) =
      some ((if (45 : Byte) = 43 then 1 else -1) *
        ((10 * digitVal 48 + digitVal 50) * 3600 + (10 * digitVal 51 + digitVal 52) * 60),
        none) :=
  colon_syntax_seconds (ascii "uTc") 45 48 50 51 52 (Or.inr (by decide)) (by decide)
    (by decide) (by decide) (by decide) (by decide)

/-- Claim C5. Hour-minute syntax: with an optional prefix `p` (empty, or "UTC" in any
letter case), a sign `s` and digits `a b c d`, `UtcOffsetSeconds (p ++ s ++ "abcd")`
returns no error and the value `direction * ((10a+b)*3600 + (10c+d)*60)`: the hours are
the first two digits and the minutes the last two. -/
theorem hourMinute_syntax_seconds (p : GoString) (s a b c d : Byte)
    (hp : p = [] ∨ (p.length = 3 ∧ ToLower p = ascii "utc")) (hs : s = 43 ∨ s = 45)
    (ha : isDigit a) (hb : isDigit b) (hc : isDigit c) (hd : isDigit d) :
    UtcOffsetSeconds (p ++ s :: [a, b, c, d]) =
      some ((if s = 43 then 1 else -1) *
        ((10 * digitVal a + digitVal b) * 3600 + (10 * digitVal c + digitVal d) * 60), none) :=
  eval_hourMinute hp hs ha hb hc hd

theorem hourMinute_syntax_seconds_witness :
    UtcOffsetSeconds (ascii "UTC" ++ 43 :: [49, 50, 52, 53]) =
      some ((if (43 : Byte) = 43 then 1 else -1) *
        ((10 * digitVal 49 + digitVal 50) * 3600 + (10 * digitVal 52 + digitVal 53) * 60),
        none) :=
  hourMinute_syntax_seconds (ascii "UTC") 43 49 50 52 53 (Or.inr (by decide)) (by decide)
    (by decide) (by decide) (by decide) (by decide)

/-- Claim C6. Hour syntax: with an optional prefix `p` (empty, or "UTC" in any letter
case), a sign `s` and digits `a b`, `UtcOffsetSeconds (p ++ s ++ "ab")` returns no error
and the value `direction * (10a+b) * 3600`: the minutes are taken as 0. -/
theorem hour_syntax_seconds (p : GoString) (s a b : Byte)
    (hp : p = [] ∨ (p.length = 3 ∧ ToLower p = ascii "utc")) (hs : s = 43 ∨ s = 45)
    (ha : isDigit a) (hb : isDigit b) :
    UtcOffsetSeconds (p ++ s :: [a, b]) =
      some ((if s = 43 then 1 else -1) * (10 * digitVal a + digitVal b) * 3600, none) := by
  rw [eval_hour hp hs ha hb, mul_assoc]
  rfl

theorem hour_syntax_seconds_witness :
    UtcOffsetSeconds ([] ++ 45 :: [57, 57]) =
      some ((if (45 : Byte) = 43 then 1 else -1) * (10 * digitVal 57 + digitVal 57) * 3600,
        none) :=
  hour_syntax_seconds [] 45 57 57 (Or.inl rfl) (by decide) (by decide) (by decide)

/-- Claim C7. The UTC prefix is transparent and case-insensitive: for a text `s` that
begins with a sign and three letters `p` equal to "utc" up to letter case,
`IsValidUtcOffset (p ++ s)` is `IsValidUtcOffset s`, and `UtcOffsetSeconds` returns the
same seconds on `p ++ s` and on `s`. -/
theorem utc_prefix_transparent (p s : GoString)
    (hp : p.length = 3 ∧ ToLower p = ascii "utc")
    (hs : ∃ c t, s = c :: t ∧ (c = 43 ∨ c = 45)) :
    IsValidUtcOffset (p ++ s) = IsValidUtcOffset s ∧
      ∃ v e e', UtcOffsetSeconds (p ++ s) = some (v, e) ∧ UtcOffsetSeconds s = some (v, e') := by
  obtain ⟨c, t, rfl, hc⟩ := hs
  have hc' : isSign c := hc
  have hiff : IsValidUtcOffset (p ++ c :: t) = true ↔ IsValidUtcOffset (c :: t) = true := by
    rw [isValid_iff_offsetText, isValid_iff_offsetText]
    constructor
    · rintro ⟨p', s', t', h, hp', hs', hb⟩
      obtain ⟨-, rfl, rfl⟩ := shape_decomp_unique (Or.inr hp) hp' hc' hs' h
      exact ⟨[], c, t, rfl, Or.inl rfl, hc', hb⟩
    · rintro ⟨p', s', t', h, hp', hs', hb⟩
      obtain ⟨-, rfl, rfl⟩ :=
        shape_decomp_unique (p := []) (Or.inl rfl) hp' hc' hs' (by simpa using h)
      exact ⟨p, c, t, rfl, Or.inr hp, hc', hb⟩
  have heq : IsValidUtcOffset (p ++ c :: t) = IsValidUtcOffset (c :: t) := by
    cases h₁ : IsValidUtcOffset (p ++ c :: t) <;> cases h₂ : IsValidUtcOffset (c :: t) <;>
      simp_all
  refine ⟨heq, ?_⟩
  cases hv : IsValidUtcOffset (c :: t)
  · exact ⟨0, _, _, eval_invalid (heq.trans hv), eval_invalid hv⟩
  · obtain ⟨p', s', t', h, hp', hs', hb⟩ := (isValid_iff_offsetText _).1 hv
    obtain ⟨-, rfl, rfl⟩ :=
      shape_decomp_unique (p := []) (Or.inl rfl) hp' hc' hs' (by simpa using h)
    obtain ⟨v, -, -, hv'⟩ := eval_offsetText hb
    exact ⟨_, none, none, hv' p c (Or.inr hp) hc', by simpa using hv' [] c (Or.inl rfl) hc'⟩

theorem utc_prefix_transparent_witness :
    IsValidUtcOffset (ascii "Utc" ++ ascii "-02:02") = IsValidUtcOffset (ascii "-02:02") ∧
      ∃ v e e', UtcOffsetSeconds (ascii "Utc" ++ ascii "-02:02") = some (v, e) ∧
        UtcOffsetSeconds (ascii "-02:02") = some (v, e') :=
  utc_prefix_transparent (ascii "Utc") (ascii "-02:02") (by decide)
    ⟨45, ascii "02:02", by decide, Or.inr rfl⟩

/-- Claim C8. Sign correctness: when `"+" ++ d` is a valid offset, `"-" ++ d` is valid too,
the seconds of `"+" ++ d` are not negative, and the seconds of `"-" ++ d` are their
negation. -/
theorem sign_correct (d : GoString) (h : IsValidUtcOffset (43 :: d) = true) :
    IsValidUtcOffset (45 :: d) = true ∧
      ∃ v : Int, 0 ≤ v ∧ UtcOffsetSeconds (43 :: d) = some (v, none) ∧
        UtcOffsetSeconds (45 :: d) = some (-v, none) := by
  obtain ⟨p', s', t', h', hp', hs', hb⟩ := (isValid_iff_offsetText _).1 h
  obtain ⟨-, -, rfl⟩ :=
    shape_decomp_unique (p := []) (s := 43) (Or.inl rfl) hp' (Or.inl rfl) hs' (by simpa using h')
  obtain ⟨v, hv0, -, hv⟩ := eval_offsetText hb
  have hplus := hv [] 43 (Or.inl rfl) (Or.inl rfl)
  have hminus := hv [] 45 (Or.inl rfl) (Or.inr rfl)
  have e1 : signDirection 43 = 1 := by decide
  have e2 : signDirection 45 = -1 := by decide
  rw [e1, one_mul] at hplus
  rw [e2, neg_one_mul] at hminus
  refine ⟨(isValid_iff_offsetText _).2 ⟨[], 45, d, rfl, Or.inl rfl, Or.inr rfl, hb⟩, v, hv0, ?_, ?_⟩
  · simpa using hplus
  · simpa using hminus

theorem sign_correct_witness :
    IsValidUtcOffset (45 :: ascii "0202") = true ∧
      ∃ v : Int, 0 ≤ v ∧ UtcOffsetSeconds (43 :: ascii "0202") = some (v, none) ∧
        UtcOffsetSeconds (45 :: ascii "0202") = some (-v, none) :=
  sign_correct (ascii "0202") (by decide)

/-- Claim C9. For every text the seconds that `UtcOffsetSeconds` returns lie between
-362340 and 362340, that is between -(99*3600+99*60) and 99*3600+99*60. -/
theorem seconds_in_range (x : GoString) :
    ∃ v e, UtcOffsetSeconds x = some (v, e) ∧
      -(99 * 3600 + 99 * 60) ≤ v ∧ v ≤ 99 * 3600 + 99 * 60 := by
  cases hv : IsValidUtcOffset x
  · exact ⟨0, _, eval_invalid hv, by norm_num, by norm_num⟩
  · obtain ⟨p, s, t, rfl, hp, hs, hb⟩ := (isValid_iff_offsetText _).1 hv
    obtain ⟨v, h0, h1, hv'⟩ := eval_offsetText hb
    refine ⟨_, none, hv' p s hp hs, ?_⟩
    rcases signDirection_cases hs with h | h <;> rw [h] <;> constructor <;> omega

/-- No text matches two of the three patterns. -/
theorem patterns_exclusive (x : GoString) :
    ¬ (ColonSyntax.MatchString x = true ∧ HourMinuteSyntax.MatchString x = true) ∧
      ¬ (ColonSyntax.MatchString x = true ∧ HourSyntax.MatchString x = true) ∧
      ¬ (HourMinuteSyntax.MatchString x = true ∧ HourSyntax.MatchString x = true) := by
  simp only [colonSyntax_match_iff, hourMinuteSyntax_match_iff, hourSyntax_match_iff]
  exact ⟨fun h => hasShape_exclusive (fun _ => colonBody_not_hourMinuteBody) h.1 h.2,
    fun h => hasShape_exclusive (fun _ => colonBody_not_hourBody) h.1 h.2,
    fun h => hasShape_exclusive (fun _ => hourMinuteBody_not_hourBody) h.1 h.2⟩

/-- The six orders of the three syntaxes. -/
theorem perm_three_cases {order : List SyntaxKind}
    (h : order.Perm [SyntaxKind.colon, SyntaxKind.hourMinute, SyntaxKind.hour]) :
    order = [.colon, .hourMinute, .hour] ∨ order = [.colon, .hour, .hourMinute] ∨
      order = [.hourMinute, .colon, .hour] ∨ order = [.hourMinute, .hour, .colon] ∨
      order = [.hour, .colon, .hourMinute] ∨ order = [.hour, .hourMinute, .colon] := by
  have hlen := h.length_eq
  match order, hlen with
  | [k₁, k₂, k₃], _ =>
    revert h
    cases k₁ <;> cases k₂ <;> cases k₃ <;> decide

/-- Claim C10. No text matches more than one of the patterns `ColonSyntax`,
`HourMinuteSyntax` and `HourSyntax`, and `UtcOffsetSeconds` returns the same result in
whichever order the three patterns are tried. -/
theorem order_of_patterns_irrelevant (x : GoString) (order : List SyntaxKind)
    (h : order.Perm [SyntaxKind.colon, SyntaxKind.hourMinute, SyntaxKind.hour]) :
    ¬ (ColonSyntax.MatchString x = true ∧ HourMinuteSyntax.MatchString x = true) ∧
      ¬ (ColonSyntax.MatchString x = true ∧ HourSyntax.MatchString x = true) ∧
      ¬ (HourMinuteSyntax.MatchString x = true ∧ HourSyntax.MatchString x = true) ∧
      UtcOffsetSecondsInOrder order x = UtcOffsetSeconds x := by
  obtain ⟨h₁, h₂, h₃⟩ := patterns_exclusive x
  refine ⟨h₁, h₂, h₃, ?_⟩
  cases hc : ColonSyntax.MatchString x <;> cases hm : HourMinuteSyntax.MatchString x <;>
    cases hh : HourSyntax.MatchString x <;>
    simp only [hc, hm, hh, and_self, not_true_eq_false] at h₁ h₂ h₃ <;>
    rcases perm_three_cases h with rfl | rfl | rfl | rfl | rfl | rfl <;>
    simp [UtcOffsetSecondsInOrder, UtcOffsetSeconds, SyntaxKind.pattern, SyntaxKind.parse,
      hc, hm, hh]

theorem order_of_patterns_irrelevant_witness :
    ¬ (ColonSyntax.MatchString (ascii "+0202") = true ∧
        HourMinuteSyntax.MatchString (ascii "+0202") = true) ∧
      ¬ (ColonSyntax.MatchString (ascii "+0202") = true ∧
        HourSyntax.MatchString (ascii "+0202") = true) ∧
      ¬ (HourMinuteSyntax.MatchString (ascii "+0202") = true ∧
        HourSyntax.MatchString (ascii "+0202") = true) ∧
      UtcOffsetSecondsInOrder [SyntaxKind.hour, SyntaxKind.colon, SyntaxKind.hourMinute]
        (ascii "+0202") = UtcOffsetSeconds (ascii "+0202") :=
  order_of_patterns_irrelevant (ascii "+0202")
    [SyntaxKind.hour, SyntaxKind.colon, SyntaxKind.hourMinute] (by decide)

/-- Every body of the three syntaxes has at least two bytes. -/
theorem body_two_bytes {t : GoString}
    (hb : isColonBody t ∨ isHourMinuteBody t ∨ isHourBody t) : ∃ a b r, t = a :: b :: r := by
  rcases hb with ⟨a, b, c, d, rfl, -⟩ | ⟨a, b, c, d, rfl, -⟩ | ⟨a, b, rfl, -⟩
  · exact ⟨a, b, _, rfl⟩
  · exact ⟨a, b, _, rfl⟩
  · exact ⟨a, b, _, rfl⟩

/-- Claim C11. A missing sign or a malformed prefix is rejected: a text that neither
begins with `+` or `-` nor begins with three letters equal to "utc" up to letter case
followed at once by `+` or `-` is not valid, and `UtcOffsetSeconds` returns 0 with an
error on it. -/
theorem missing_sign_or_bad_prefix_rejected (x : GoString)
    (h₁ : ¬ ∃ c t, x = c :: t ∧ (c = 43 ∨ c = 45))
    (h₂ : ¬ ∃ p c t, x = p ++ c :: t ∧ p.length = 3 ∧ ToLower p = ascii "utc" ∧
      (c = 43 ∨ c = 45)) :
    IsValidUtcOffset x = false ∧ ∃ e, UtcOffsetSeconds x = some (0, some e) := by
  have hv : IsValidUtcOffset x = false := by
    rw [Bool.eq_false_iff, Ne, isValid_iff_offsetText]
    rintro ⟨p, s, t, rfl, hp | hp, hs, -⟩
    · subst hp
      exact h₁ ⟨s, t, rfl, hs⟩
    · exact h₂ ⟨p, s, t, rfl, hp.1, hp.2, hs⟩
  exact ⟨hv, _, eval_invalid hv⟩

theorem missing_sign_or_bad_prefix_rejected_witness :
    (IsValidUtcOffset (ascii "02") = false ∧
        ∃ e, UtcOffsetSeconds (ascii "02") = some (0, some e)) ∧
      (IsValidUtcOffset (ascii "asd+02") = false ∧
        ∃ e, UtcOffsetSeconds (ascii "asd+02") = some (0, some e)) ∧
      (IsValidUtcOffset (ascii "UUTC-02") = false ∧
        ∃ e, UtcOffsetSeconds (ascii "UUTC-02") = some (0, some e)) ∧
      (IsValidUtcOffset (ascii "utcc-02") = false ∧
        ∃ e, UtcOffsetSeconds (ascii "utcc-02") = some (0, some e)) := by
  have key : ∀ x : GoString, (∀ c t, x = c :: t → ¬ (c = 43 ∨ c = 45)) →
      (∀ a b c d t, x = a :: b :: c :: d :: t →
        ¬ (ToLower [a, b, c] = ascii "utc" ∧ (d = 43 ∨ d = 45))) →
      IsValidUtcOffset x = false ∧ ∃ e, UtcOffsetSeconds x = some (0, some e) := by
    intro x k₁ k₂
    refine missing_sign_or_bad_prefix_rejected x ?_ ?_
    · rintro ⟨c, t, h, hc⟩
      exact k₁ c t h hc
    · rintro ⟨p, c, t, h, hlen, hp, hc⟩
      match p, hlen with
      | [a, b, c'], _ => exact k₂ a b c' c t h ⟨hp, hc⟩
  refine ⟨key _ ?_ ?_, key _ ?_ ?_, key _ ?_ ?_, key _ ?_ ?_⟩
  all_goals
    intros
    rename_i h
    simp only [ascii, String.toList, List.map, List.cons.injEq] at h
    first
      | (obtain ⟨rfl, -⟩ := h; decide)
      | (obtain ⟨rfl, rfl, rfl, rfl, -⟩ := h; decide)
      | simp at h

/-- Lower-casing a byte gives a given lower-case letter exactly for that letter and for
its capital. -/
theorem toLowerByte_eq_letter (b l : Byte) (hl : 97 ≤ l.val ∧ l.val ≤ 122) :
    toLowerByte b = l ↔ b = l ∨ b.val + 32 = l.val := by
  unfold toLowerByte
  split
  · rename_i hb
    constructor
    · intro h
      have := congrArg Fin.val h
      simp only [Fin.ofNat, Fin.val_mk] at this
      omega
    · rintro (rfl | h)
      · omega
      · apply Fin.ext
        simp only [Fin.ofNat, Fin.val_mk]
        omega
  · rename_i hb
    constructor
    · exact Or.inl
    · rintro (h | h)
      · exact h
      · omega

/-- Claim C12. On a text `x` of at least three bytes `stripUtcPrefix` returns `x` without
its first three bytes when these, lower-cased, are "utc", that is when they are `U` or
`u`, `T` or `t`, `C` or `c`, and returns `x` unchanged otherwise. -/
theorem stripUtcPrefix_spec (x : GoString) (h : 3 ≤ x.length) :
    stripUtcPrefix x =
        some (if ToLower (x.take 3) = ascii "utc" then x.drop 3 else x) ∧
      (ToLower (x.take 3) = ascii "utc" ↔
        ∃ a b c r, x = a :: b :: c :: r ∧ (a = 117 ∨ a = 85) ∧ (b = 116 ∨ b = 84) ∧
          (c = 99 ∨ c = 67)) := by
  constructor
  · unfold stripUtcPrefix
    rw [if_neg (by omega)]
    split <;> rfl
  · match x, h with
    | a :: b :: c :: r, _ =>
      have h4 : ascii "utc" = [117, 116, 99] := by decide
      have ha := toLowerByte_eq_letter a 117 (by decide)
      have hb := toLowerByte_eq_letter b 116 (by decide)
      have hc := toLowerByte_eq_letter c 99 (by decide)
      have e1 : ∀ y : Byte, y.val + 32 = (117 : Byte).val ↔ y = 85 := by
        intro y
        constructor
        · intro hy
          apply Fin.ext
          have : ((117 : Byte).val) = 117 := rfl
          have : ((85 : Byte).val) = 85 := rfl
          omega
        · rintro rfl
          rfl
      have e2 : ∀ y : Byte, y.val + 32 = (116 : Byte).val ↔ y = 84 := by
        intro y
        constructor
        · intro hy
          apply Fin.ext
          have : ((116 : Byte).val) = 116 := rfl
          have : ((84 : Byte).val) = 84 := rfl
          omega
        · rintro rfl
          rfl
      have e3 : ∀ y : Byte, y.val + 32 = (99 : Byte).val ↔ y = 67 := by
        intro y
        constructor
        · intro hy
          apply Fin.ext
          have : ((99 : Byte).val) = 99 := rfl
          have : ((67 : Byte).val) = 67 := rfl
          omega
        · rintro rfl
          rfl
      rw [e1] at ha
      rw [e2] at hb
      rw [e3] at hc
      simp only [List.take, ToLower, List.map, h4, List.cons.injEq, and_true, ha, hb, hc]
      constructor
      · rintro ⟨h1, h2, h3⟩
        exact ⟨a, b, c, r, ⟨rfl, rfl, rfl, rfl⟩, h1, h2, h3⟩
      · rintro ⟨a', b', c', r', ⟨rfl, rfl, rfl, rfl⟩, h1, h2, h3⟩
        exact ⟨h1, h2, h3⟩

theorem stripUtcPrefix_spec_witness :
    stripUtcPrefix (ascii "utcc-02") = some (ascii "c-02") ∧
      stripUtcPrefix (ascii "UUTC-02") = some (ascii "UUTC-02") ∧
      stripUtcPrefix (ascii "ASD-02") = some (ascii "ASD-02") :=
  ⟨(stripUtcPrefix_spec (ascii "utcc-02") (by decide)).1.trans (by decide),
    (stripUtcPrefix_spec (ascii "UUTC-02") (by decide)).1.trans (by decide),
    (stripUtcPrefix_spec (ascii "ASD-02") (by decide)).1.trans (by decide)⟩

/-- Claim C13. On a non-empty text `stripSignPrefix` returns the text without its first
byte and 1 when that byte is `+`, the text without its first byte and -1 when it is `-`,
and the text unchanged and 0 when it is anything else. -/
theorem stripSignPrefix_spec (x : GoString) (h : x ≠ []) :
    stripSignPrefix x =
      some (if x.head h = 43 then (x.tail, 1)
        else if x.head h = 45 then (x.tail, -1)
        else (x, 0)) := by
  match x, h with
  | c :: t, _ =>
    simp only [stripSignPrefix, List.head_cons, List.tail_cons]
    split
    · rfl
    · split <;> rfl

theorem stripSignPrefix_spec_witness :
    stripSignPrefix (ascii "-02") = some (ascii "02", -1) ∧
      stripSignPrefix (ascii "+02:02") = some (ascii "02:02", 1) ∧
      stripSignPrefix (ascii "?02") = some (ascii "?02", 0) :=
  ⟨(stripSignPrefix_spec (ascii "-02") (by decide)).trans (by decide),
    (stripSignPrefix_spec (ascii "+02:02") (by decide)).trans (by decide),
    (stripSignPrefix_spec (ascii "?02") (by decide)).trans (by decide)⟩

/-- Claim C14. The branch of direction 0 of `stripSignPrefix` is not reached from the
public entry point: on every valid text `stripUtcPrefix` and then `stripSignPrefix` return,
and the direction is 1 or -1. -/
theorem zero_direction_unreachable (x : GoString) (h : IsValidUtcOffset x = true) :
    ∃ offset rest direction, stripUtcPrefix x = some offset ∧
      stripSignPrefix offset = some (rest, direction) ∧
      (direction = 1 ∨ direction = -1) := by
  obtain ⟨p, s, t, rfl, hp, hs, hb⟩ := (isValid_iff_offsetText x).1 h
  obtain ⟨a, b, r, rfl⟩ := body_two_bytes hb
  exact ⟨_, _, _, stripUtcPrefix_shape hp hs a b r, stripSignPrefix_sign hs _,
    signDirection_cases hs⟩

theorem zero_direction_unreachable_witness :
    ∃ offset rest direction, stripUtcPrefix (ascii "utc-0230") = some offset ∧
      stripSignPrefix offset = some (rest, direction) ∧
      (direction = 1 ∨ direction = -1) :=
  zero_direction_unreachable (ascii "utc-0230") (by decide)

/-- Claim C15. The failure of the numeric conversion is not reached from the public entry
point: every error that `UtcOffsetSeconds x` returns is the error of no match, its message
is "invalid UTC offset " followed by `x` and has no further detail, and on every text that
matches a syntax the result has no error. -/
theorem conversion_failure_unreachable (x : GoString) (v : Int) (e : FmtError)
    (h : UtcOffsetSeconds x = some (v, some e)) :
    e = Errorf "invalid UTC offset %v" [.str x] ∧
      (∀ quote, e.Error quote = ascii "invalid UTC offset " ++ x) ∧
      IsValidUtcOffset x = false := by
  cases hv : IsValidUtcOffset x
  · rw [eval_invalid hv] at h
    simp only [Option.some.injEq, Prod.mk.injEq] at h
    obtain ⟨-, rfl⟩ := h
    exact ⟨rfl, fun quote => noMatch_message quote x, rfl⟩
  · obtain ⟨p, s, t, rfl, hp, hs, hb⟩ := (isValid_iff_offsetText x).1 hv
    obtain ⟨w, -, -, hw⟩ := eval_offsetText hb
    rw [hw p s hp hs] at h
    simp at h

theorem conversion_failure_unreachable_witness :
    Errorf "invalid UTC offset %v" [.str (ascii "+2:02")] =
        Errorf "invalid UTC offset %v" [.str (ascii "+2:02")] ∧
      (∀ quote, (Errorf "invalid UTC offset %v" [.str (ascii "+2:02")]).Error quote =
        ascii "invalid UTC offset " ++ ascii "+2:02") ∧
      IsValidUtcOffset (ascii "+2:02") = false :=
  conversion_failure_unreachable (ascii "+2:02") 0 _ (by decide)

/-- Claim C18. `UtcOffsetSeconds` is total: on every text it returns, no index or slice
of the parsing path being out of range. A parser is reached on a valid text only, and a
valid text has at least three bytes, its remainder after the prefix is not empty and
begins with the sign, the split at the colon yields two parts when the colon pattern
matched, and the remainder after the sign has four bytes when the hour-minute pattern
matched. -/
theorem utcOffsetSeconds_total (x : GoString) :
    (∃ r, UtcOffsetSeconds x = some r) ∧
      (IsValidUtcOffset x = true →
        3 ≤ x.length ∧
          ∃ offset rest direction, stripUtcPrefix x = some offset ∧ offset ≠ [] ∧
            stripSignPrefix offset = some (rest, direction) ∧
            (ColonSyntax.MatchString x = true →
              ∃ hours minutes, Split rest 58 = [hours, minutes]) ∧
            (HourMinuteSyntax.MatchString x = true → rest.length = 4)) := by
  constructor
  · cases hv : IsValidUtcOffset x
    · exact ⟨_, eval_invalid hv⟩
    · obtain ⟨p, s, t, rfl, hp, hs, hb⟩ := (isValid_iff_offsetText x).1 hv
      obtain ⟨w, -, -, hw⟩ := eval_offsetText hb
      exact ⟨_, hw p s hp hs⟩
  · intro hv
    obtain ⟨p, s, t, rfl, hp, hs, hb⟩ := (isValid_iff_offsetText x).1 hv
    obtain ⟨a, b, r, rfl⟩ := body_two_bytes hb
    refine ⟨?_, s :: a :: b :: r, a :: b :: r, signDirection s, stripUtcPrefix_shape hp hs a b r,
      List.cons_ne_nil _ _, stripSignPrefix_sign hs _, ?_, ?_⟩
    · simp only [List.length_append, List.length_cons]
      omega
    · intro hm
      obtain ⟨p', s', t', h', hp', hs', a', b', c', d', rfl, ha, hb', hc, hd⟩ :=
        (colonSyntax_match_iff _).1 hm
      obtain ⟨-, -, h''⟩ := shape_decomp_unique hp hp' hs hs' h'
      rw [h'']
      exact ⟨_, _, Split_colon_body ha hb' hc hd⟩
    · intro hm
      obtain ⟨p', s', t', h', hp', hs', a', b', c', d', rfl, -⟩ :=
        (hourMinuteSyntax_match_iff _).1 hm
      obtain ⟨-, -, h''⟩ := shape_decomp_unique hp hp' hs hs' h'
      rw [h'']
      rfl

/-- Claim C19. The three syntaxes agree on the value they denote: with an optional
prefix `p`, a sign `s` and digits `a b c d`, `UtcOffsetSeconds` returns the same on
`p ++ s ++ "abcd"` and on `p ++ s ++ "ab:cd"`, and the same on `p ++ s ++ "ab"`, on
`p ++ s ++ "ab00"` and on `p ++ s ++ "ab:00"`. -/
theorem syntaxes_agree (p : GoString) (s a b c d : Byte)
    (hp : p = [] ∨ (p.length = 3 ∧ ToLower p = ascii "utc")) (hs : s = 43 ∨ s = 45)
    (ha : isDigit a) (hb : isDigit b) (hc : isDigit c) (hd : isDigit d) :
    UtcOffsetSeconds (p ++ s :: [a, b, c, d]) = UtcOffsetSeconds (p ++ s :: [a, b, 58, c, d]) ∧
      UtcOffsetSeconds (p ++ s :: [a, b]) = UtcOffsetSeconds (p ++ s :: [a, b, 48, 48]) ∧
      UtcOffsetSeconds (p ++ s :: [a, b, 48, 48]) =
        UtcOffsetSeconds (p ++ s :: [a, b, 58, 48, 48]) := by
  have h0 : isDigit 48 := by decide
  have hz : digitVal 48 = 0 := by decide
  refine ⟨?_, ?_, ?_⟩
  · rw [eval_hourMinute hp hs ha hb hc hd, eval_colon hp hs ha hb hc hd]
  · rw [eval_hour hp hs ha hb, eval_hourMinute hp hs ha hb h0 h0, hz]
    simp
  · rw [eval_hourMinute hp hs ha hb h0 h0, eval_colon hp hs ha hb h0 h0]

theorem syntaxes_agree_witness :
    UtcOffsetSeconds (ascii "UTC" ++ 43 :: [48, 50, 51, 52]) =
        UtcOffsetSeconds (ascii "UTC" ++ 43 :: [48, 50, 58, 51, 52]) ∧
      UtcOffsetSeconds (ascii "UTC" ++ 43 :: [48, 50]) =
        UtcOffsetSeconds (ascii "UTC" ++ 43 :: [48, 50, 48, 48]) ∧
      UtcOffsetSeconds (ascii "UTC" ++ 43 :: [48, 50, 48, 48]) =
        UtcOffsetSeconds (ascii "UTC" ++ 43 :: [48, 50, 58, 48, 48]) :=
  syntaxes_agree (ascii "UTC") 43 48 50 51 52 (Or.inr (by decide)) (by decide) (by decide)
    (by decide) (by decide) (by decide)

/-- Claim C20. The parsers do not validate on their own: the text "+2:2" is not valid, and
`parseColonSyntax` called on it returns 7320 seconds and no error, while `UtcOffsetSeconds`
returns 0 and the error of no match: the rejection of that text rests on the check of the
patterns. -/
theorem parsers_do_not_validate :
    IsValidUtcOffset (ascii "+2:2") = false ∧
      parseColonSyntax (ascii "+2:2") = some (7320, none) ∧
      UtcOffsetSeconds (ascii "+2:2") =
        some (0, some (Errorf "invalid UTC offset %v" [.str (ascii "+2:2")])) := by
  refine ⟨by decide, by decide, by decide⟩

theorem decimalValue_ge (ds : GoString) (n : Nat) : n ≤ decimalValue ds n := by
  induction ds generalizing n with
  | nil => exact Nat.le_refl n
  | cons c rest ih =>
    have := ih (n * 10 + (c.val - 48))
    simp only [decimalValue]
    omega

theorem decimalValue_lt (ds : GoString) (hd : ∀ b ∈ ds, isDigit b) (n : Nat) :
    decimalValue ds n < (n + 1) * 10 ^ ds.length := by
  induction ds generalizing n with
  | nil => simp [decimalValue]
  | cons c rest ih =>
    have hc : isDigit c := hd c (List.mem_cons_self _ _)
    unfold isDigit at hc
    have h := ih (fun b hb => hd b (List.mem_cons_of_mem _ hb)) (n * 10 + (c.val - 48))
    simp only [decimalValue, List.length_cons, pow_succ]
    calc decimalValue rest (n * 10 + (c.val - 48))
        < (n * 10 + (c.val - 48) + 1) * 10 ^ rest.length := h
      _ ≤ ((n + 1) * 10) * 10 ^ rest.length := Nat.mul_le_mul_right _ (by omega)
      _ = (n + 1) * (10 ^ rest.length * 10) := by ring

/-- The digit loop of the fast path on digits: their value. -/
theorem atoiDigits_digits (ds : GoString) (hd : ∀ b ∈ ds, isDigit b) (n : Nat) :
    atoiDigits ds (n : Int) = some ((decimalValue ds n : Nat) : Int) := by
  induction ds generalizing n with
  | nil => rfl
  | cons c rest ih =>
    have hc : isDigit c := hd c (List.mem_cons_self _ _)
    rw [atoiDigits_cons hc, decimalValue]
    have h := ih (fun b hb => hd b (List.mem_cons_of_mem _ hb)) (n * 10 + (c.val - 48))
    have e : ((n * 10 + (c.val - 48) : Nat) : Int) = (n : Int) * 10 + digitVal c := by
      unfold isDigit at hc
      unfold digitVal
      omega
    rw [← e]
    exact h

/-- The digit loop of the fast path on a text with a byte that is no digit: the syntax
error. -/
theorem atoiDigits_not_digits (ds : GoString) (hd : ¬ ∀ b ∈ ds, isDigit b) (n : Int) :
    atoiDigits ds n = none := by
  induction ds generalizing n with
  | nil => simp at hd
  | cons c rest ih =>
    by_cases hc : isDigit c
    · rw [atoiDigits_cons hc]
      apply ih
      intro h
      apply hd
      intro b hb
      rcases List.mem_cons.1 hb with rfl | hb
      · exact hc
      · exact h b hb
    · unfold isDigit at hc
      simp only [atoiDigits]
      rw [if_pos (by omega)]

/-- The digit loop of `ParseUint` on digits whose value fits 64 bits: their value. -/
theorem parseUintLoop_digits (ds : GoString) (hd : ∀ b ∈ ds, isDigit b) (n : Nat)
    (hv : decimalValue ds n ≤ 2 ^ 64 - 1) :
    parseUintLoop ds n = .ok (decimalValue ds n) := by
  induction ds generalizing n with
  | nil => rfl
  | cons c rest ih =>
    have hc : isDigit c := hd c (List.mem_cons_self _ _)
    have hge := decimalValue_ge rest (n * 10 + (c.val - 48))
    simp only [decimalValue] at hv ⊢
    have h := ih (fun b hb => hd b (List.mem_cons_of_mem _ hb)) (n * 10 + (c.val - 48)) hv
    unfold isDigit at hc
    simp only [parseUintLoop, intSize]
    rw [if_pos hc, if_neg (by omega), if_neg (by omega)]
    exact h

/-- The digit loop of `ParseUint` on digits whose value does not fit 64 bits: the range
error. -/
theorem parseUintLoop_overflow (ds : GoString) (hd : ∀ b ∈ ds, isDigit b) (n : Nat)
    (hn : n ≤ 2 ^ 64 - 1) (hv : ¬ decimalValue ds n ≤ 2 ^ 64 - 1) :
    parseUintLoop ds n = .error ConvErr.ErrRange := by
  induction ds generalizing n with
  | nil => exact absurd hn hv
  | cons c rest ih =>
    have hc : isDigit c := hd c (List.mem_cons_self _ _)
    simp only [decimalValue] at hv
    unfold isDigit at hc
    simp only [parseUintLoop, intSize]
    rw [if_pos hc]
    split
    · rfl
    · split
      · rfl
      · exact ih (fun b hb => hd b (List.mem_cons_of_mem _ hb)) _ (by omega) hv

/-- The digit loop of `ParseUint` on a text with a byte that is no digit: an error. -/
theorem parseUintLoop_not_digits (ds : GoString) (hd : ¬ ∀ b ∈ ds, isDigit b) (n : Nat) :
    ∃ k, parseUintLoop ds n = .error k := by
  induction ds generalizing n with
  | nil => simp at hd
  | cons c rest ih =>
    by_cases hc : isDigit c
    · have hrest : ¬ ∀ b ∈ rest, isDigit b := by
        intro h
        apply hd
        intro b hb
        rcases List.mem_cons.1 hb with rfl | hb
        · exact hc
        · exact h b hb
      unfold isDigit at hc
      simp only [parseUintLoop]
      rw [if_pos hc]
      split
      · exact ⟨_, rfl⟩
      · split
        · exact ⟨_, rfl⟩
        · exact ih hrest _
    · unfold isDigit at hc
      simp only [parseUintLoop]
      rw [if_neg hc]
      exact ⟨_, rfl⟩

theorem literalValue_cons (c : Byte) (t : GoString) :
    literalValue (c :: t) =
      if c = 45 then -(decimalValue (literalDigits (c :: t)) 0 : Int)
      else (decimalValue (literalDigits (c :: t)) 0 : Int) := by
  simp only [literalValue, List.head?_cons, Option.some.injEq]

theorem Atoi_fast (c : Byte) (t : GoString) (h : (c :: t).length < 19) :
    Atoi (c :: t) =
      if literalDigits (c :: t) = [] then (0, some (syntaxError (c :: t)))
      else
        match atoiDigits (literalDigits (c :: t)) 0 with
        | none => (0, some (syntaxError (c :: t)))
        | some n => (if c = 45 then -n else n, none) := by
  have e : (if c = 45 ∨ c = 43 then t else c :: t) = literalDigits (c :: t) := by
    simp only [literalDigits, or_comm]
  have hl : 0 < (c :: t).length ∧ (c :: t).length < 19 := ⟨by simp, h⟩
  simp only [Atoi, if_pos hl, e, Nat.lt_one_iff, List.length_eq_zero]

theorem Atoi_slow (c : Byte) (t : GoString) (h : ¬ (c :: t).length < 19) :
    Atoi (c :: t) =
      if literalDigits (c :: t) = [] then (0, some (syntaxError (c :: t)))
      else
        match parseUintLoop (literalDigits (c :: t)) 0 with
        | .error ConvErr.ErrSyntax => (0, some (syntaxError (c :: t)))
        | .error ConvErr.ErrRange =>
          if c = 45 then (-(2 ^ 63 : Int), some (rangeError (c :: t)))
          else ((2 ^ 63 : Int) - 1, some (rangeError (c :: t)))
        | .ok un => parseIntEnd c un (c :: t) := by
  have hl : ¬ (0 < (c :: t).length ∧ (c :: t).length < 19) := fun h' => h h'.2
  simp only [Atoi, if_neg hl, atoiSlow, literalDigits, intSize, decide_eq_true_eq, parseIntEnd]

theorem fitsInt_literalValue_cons (c : Byte) (t : GoString) :
    fitsInt (literalValue (c :: t)) ↔
      if c = 45 then decimalValue (literalDigits (c :: t)) 0 ≤ 2 ^ 63
      else decimalValue (literalDigits (c :: t)) 0 ≤ 2 ^ 63 - 1 := by
  rw [literalValue_cons]
  unfold fitsInt intSize
  norm_num
  split
  · constructor
    · intro h
      omega
    · intro h
      constructor <;> omega
  · constructor
    · intro h
      omega
    · intro h
      constructor <;> omega

/-- What `strconv.Atoi` does: a base-10 literal whose value fits `int` is converted to
that value, and every other text gives an error. -/
theorem Atoi_spec (s : GoString) :
    (isIntLiteral s ∧ fitsInt (literalValue s) → Atoi s = (literalValue s, none)) ∧
      (¬ (isIntLiteral s ∧ fitsInt (literalValue s)) → ∃ v e, Atoi s = (v, some e)) := by
  match s with
  | [] =>
    refine ⟨fun h => absurd rfl h.1.1, fun _ => ⟨0, _, rfl⟩⟩
  | c :: t =>
    by_cases hnil : literalDigits (c :: t) = []
    · have hnl : ¬ isIntLiteral (c :: t) := fun h => h.1 hnil
      refine ⟨fun h => absurd h.1 hnl, fun _ => ?_⟩
      by_cases hlen : (c :: t).length < 19
      · rw [Atoi_fast c t hlen, if_pos hnil]
        exact ⟨_, _, rfl⟩
      · rw [Atoi_slow c t hlen, if_pos hnil]
        exact ⟨_, _, rfl⟩
    · by_cases hd : ∀ b ∈ literalDigits (c :: t), isDigit b
      · have hlit : isIntLiteral (c :: t) := ⟨hnil, hd⟩
        by_cases hlen : (c :: t).length < 19
        · -- the fast path: the value has at most 18 digits and fits
          have hval : Atoi (c :: t) = (literalValue (c :: t), none) := by
            rw [Atoi_fast c t hlen, if_neg hnil]
            have := atoiDigits_digits _ hd 0
            simp only [Nat.cast_zero] at this
            rw [this, literalValue_cons]
          have hdl : (literalDigits (c :: t)).length ≤ 18 := by
            have : (literalDigits (c :: t)).length ≤ (c :: t).length := by
              simp only [literalDigits]
              split <;> simp
            omega
          have hb := decimalValue_lt _ hd 0
          have hp : 10 ^ (literalDigits (c :: t)).length ≤ 10 ^ 18 :=
            Nat.pow_le_pow_right (by norm_num) hdl
          have hfit : fitsInt (literalValue (c :: t)) := by
            rw [literalValue_cons]
            unfold fitsInt intSize
            norm_num at hp hb ⊢
            split <;> constructor <;> omega
          exact ⟨fun _ => hval, fun h => absurd ⟨hlit, hfit⟩ h⟩
        · rw [Atoi_slow c t hlen, if_neg hnil]
          have hiff := fitsInt_literalValue_cons c t
          have hval := literalValue_cons c t
          by_cases hv : decimalValue (literalDigits (c :: t)) 0 ≤ 2 ^ 64 - 1
          · rw [parseUintLoop_digits _ hd 0 hv]
            dsimp only
            by_cases hc : c = 45
            · subst hc
              rw [if_pos rfl] at hiff hval
              by_cases hf : decimalValue (literalDigits (45 :: t)) 0 ≤ 2 ^ 63
              · have e : parseIntEnd 45 (decimalValue (literalDigits (45 :: t)) 0) (45 :: t) =
                    (literalValue (45 :: t), none) := by
                  simp only [parseIntEnd, eq_self_iff_true, not_true_eq_false, false_and,
                    if_false, true_and, if_true, hval]
                  rw [if_neg (by omega)]
                exact ⟨fun _ => e, fun h => absurd ⟨hlit, hiff.2 hf⟩ h⟩
              · have e : parseIntEnd 45 (decimalValue (literalDigits (45 :: t)) 0) (45 :: t) =
                    (-(2 ^ 63 : Int), some (rangeError (45 :: t))) := by
                  simp only [parseIntEnd, eq_self_iff_true, not_true_eq_false, false_and,
                    if_false, true_and]
                  rw [if_pos (by omega)]
                exact ⟨fun h => absurd (hiff.1 h.2) hf, fun _ => ⟨_, _, e⟩⟩
            · rw [if_neg hc] at hiff hval
              by_cases hf : decimalValue (literalDigits (c :: t)) 0 ≤ 2 ^ 63 - 1
              · have e : parseIntEnd c (decimalValue (literalDigits (c :: t)) 0) (c :: t) =
                    (literalValue (c :: t), none) := by
                  simp only [parseIntEnd, hc, not_false_eq_true, true_and, false_and, if_false,
                    hval]
                  rw [if_neg (by omega)]
                exact ⟨fun _ => e, fun h => absurd ⟨hlit, hiff.2 hf⟩ h⟩
              · have e : parseIntEnd c (decimalValue (literalDigits (c :: t)) 0) (c :: t) =
                    ((2 ^ 63 : Int) - 1, some (rangeError (c :: t))) := by
                  simp only [parseIntEnd, hc, not_false_eq_true, true_and]
                  rw [if_pos (by omega)]
                exact ⟨fun h => absurd (hiff.1 h.2) hf, fun _ => ⟨_, _, e⟩⟩
          · rw [parseUintLoop_overflow _ hd 0 (by norm_num) hv]
            have hnf : ¬ fitsInt (literalValue (c :: t)) := by
              rw [hiff]
              split <;> omega
            refine ⟨fun h => absurd h.2 hnf, fun _ => ?_⟩
            dsimp only
            split <;> exact ⟨_, _, rfl⟩
      · have hnl : ¬ isIntLiteral (c :: t) := fun h => hd h.2
        refine ⟨fun h => absurd h.1 hnl, fun _ => ?_⟩
        by_cases hlen : (c :: t).length < 19
        · rw [Atoi_fast c t hlen, if_neg hnil, atoiDigits_not_digits _ hd]
          exact ⟨_, _, rfl⟩
        · rw [Atoi_slow c t hlen, if_neg hnil]
          obtain ⟨k, hk⟩ := parseUintLoop_not_digits _ hd 0
          rw [hk]
          cases k
          · exact ⟨_, _, rfl⟩
          · dsimp only
            split <;> exact ⟨_, _, rfl⟩

theorem wrapInt_of_fits {z : Int} (h : fitsInt z) : wrapInt z = z := by
  unfold fitsInt intSize at h
  unfold wrapInt intSize
  norm_num at h ⊢
  omega

/-- The error of `strconv.Atoi` names the function `Atoi` and the whole text. -/
theorem Atoi_error_form (s : GoString) (w : Int) (ne : NumError) (h : Atoi s = (w, some ne)) :
    ne = syntaxError s ∨ ne = rangeError s := by
  by_cases hc : isConvertible s
  · rw [(Atoi_spec s).1 hc] at h
    simp at h
  · match s with
    | [] =>
      have : Atoi [] = (0, some (syntaxError [])) := rfl
      rw [this] at h
      simp only [Prod.mk.injEq, Option.some.injEq] at h
      exact Or.inl h.2.symm
    | c :: t =>
      by_cases hlen : (c :: t).length < 19
      · rw [Atoi_fast c t hlen] at h
        split at h
        · simp only [Prod.mk.injEq, Option.some.injEq] at h
          exact Or.inl h.2.symm
        · split at h
          · simp only [Prod.mk.injEq, Option.some.injEq] at h
            exact Or.inl h.2.symm
          · simp at h
      · rw [Atoi_slow c t hlen] at h
        split at h
        · simp only [Prod.mk.injEq, Option.some.injEq] at h
          exact Or.inl h.2.symm
        · split at h
          · simp only [Prod.mk.injEq, Option.some.injEq] at h
            exact Or.inl h.2.symm
          · split at h <;>
              (simp only [Prod.mk.injEq, Option.some.injEq] at h; exact Or.inr h.2.symm)
          · unfold parseIntEnd at h
            split at h
            · simp only [Prod.mk.injEq, Option.some.injEq] at h
              exact Or.inr h.2.symm
            · split at h
              · simp only [Prod.mk.injEq, Option.some.injEq] at h
                exact Or.inr h.2.symm
              · simp at h

/-- The message of the error that wraps the error of the conversion. -/
theorem conversion_message (quote : GoString → GoString) (x : GoString) (ne : NumError) :
    (Errorf "invalid UTC offset %v, %v" [.str x, .err ne]).Error quote =
      ascii "invalid UTC offset " ++ x ++ ascii ", " ++ ne.Error quote := by
  have h : (Errorf "invalid UTC offset %v, %v" [.str x, .err ne]).Error quote =
      ascii "invalid UTC offset " ++ (x ++ (ascii ", " ++ (ne.Error quote ++ []))) := rfl
  rw [h, List.append_nil, List.append_assoc, List.append_assoc]

/-- The message of an error of `Atoi`. -/
theorem atoi_error_message (quote : GoString → GoString) (field : GoString) (ne : NumError)
    (h : ne = syntaxError field ∨ ne = rangeError field) :
    ne.Error quote =
      ascii "strconv.Atoi: parsing " ++ quote field ++ ascii ": " ++ ne.Err.Error := by
  have e : ascii "strconv." ++ ascii "Atoi" ++ ascii ": parsing " =
      ascii "strconv.Atoi: parsing " := by decide
  rcases h with rfl | rfl <;> simp only [NumError.Error, syntaxError, rangeError, e]

/-- What `hoursAndMinutesToSecods` returns when a conversion fails: 0 and the error of
the hours, or else of the minutes. -/
theorem hoursAndMinutesToSecods_error (h m : GoString)
    (hn : ¬ isConvertible h ∨ ¬ isConvertible m) :
    ∃ ne field w, (field = h ∨ field = m) ∧ Atoi field = (w, some ne) ∧
      hoursAndMinutesToSecods h m = (0, some ne) := by
  by_cases hh : isConvertible h
  · have hm : ¬ isConvertible m := hn.resolve_left (not_not.2 hh)
    obtain ⟨w, ne, hw⟩ := (Atoi_spec m).2 hm
    refine ⟨ne, m, w, Or.inr rfl, hw, ?_⟩
    simp only [hoursAndMinutesToSecods, (Atoi_spec h).1 hh, hw]
  · obtain ⟨w, ne, hw⟩ := (Atoi_spec h).2 hh
    refine ⟨ne, h, w, Or.inl rfl, hw, ?_⟩
    simp only [hoursAndMinutesToSecods, hw]

set_option maxRecDepth 4096 in
/-- Claim C16, as stated, fails: "9223372036854775807" and "0" are base-10 integer
literals with the values 9223372036854775807 and 0, and `hoursAndMinutesToSecods`
returns -3600 on them, not 9223372036854775807 * 3600 + 0 * 60: the product wraps
around in Go's `int`. -/
theorem hoursAndMinutesToSecods_overflow :
    isIntLiteral (ascii "9223372036854775807") ∧
      literalValue (ascii "9223372036854775807") = 9223372036854775807 ∧
      isIntLiteral (ascii "0") ∧ literalValue (ascii "0") = 0 ∧
      hoursAndMinutesToSecods (ascii "9223372036854775807") (ascii "0") = (-3600, none) ∧
      hoursAndMinutesToSecods (ascii "9223372036854775807") (ascii "0") ≠
        (9223372036854775807 * 3600 + 0 * 60, none) := by
  refine ⟨by decide, by rfl, by decide, by decide, by decide, by decide⟩

/-- Claim C16, amended. `hoursAndMinutesToSecods h m` returns `H*3600 + M*60` wrapped to
Go's 64-bit `int`, and no error, when `h` and `m` are base-10 integer literals whose values
`H` and `M` fit `int`; this is `H*3600 + M*60` itself when that number fits `int`. It
returns 0 and the error of the conversion when `h`, or else `m`, is no such literal: the
hours are checked first. -/
theorem hoursAndMinutesToSecods_spec (h m : GoString) :
    (isConvertible h → isConvertible m →
        hoursAndMinutesToSecods h m =
            (wrapInt (literalValue h * 3600 + literalValue m * 60), none) ∧
          (fitsInt (literalValue h * 3600 + literalValue m * 60) →
            hoursAndMinutesToSecods h m =
              (literalValue h * 3600 + literalValue m * 60, none))) ∧
      (¬ isConvertible h →
        ∃ w e, Atoi h = (w, some e) ∧ hoursAndMinutesToSecods h m = (0, some e)) ∧
      (isConvertible h → ¬ isConvertible m →
        ∃ w e, Atoi m = (w, some e) ∧ hoursAndMinutesToSecods h m = (0, some e)) := by
  refine ⟨fun hh hm => ?_, fun hh => ?_, fun hh hm => ?_⟩
  · have e : hoursAndMinutesToSecods h m =
        (wrapInt (literalValue h * 3600 + literalValue m * 60), none) := by
      simp only [hoursAndMinutesToSecods, (Atoi_spec h).1 hh, (Atoi_spec m).1 hm]
      congr 2
      ring
    exact ⟨e, fun hf => by rw [e, wrapInt_of_fits hf]⟩
  · obtain ⟨w, ne, hw⟩ := (Atoi_spec h).2 hh
    exact ⟨w, ne, hw, by simp only [hoursAndMinutesToSecods, hw]⟩
  · obtain ⟨w, ne, hw⟩ := (Atoi_spec m).2 hm
    exact ⟨w, ne, hw, by simp only [hoursAndMinutesToSecods, (Atoi_spec h).1 hh, hw]⟩

set_option maxRecDepth 4096 in
theorem hoursAndMinutesToSecods_spec_witness :
    hoursAndMinutesToSecods (ascii "02") (ascii "02") = (7320, none) ∧
      (∃ w e, Atoi (ascii "0A") = (w, some e) ∧
        hoursAndMinutesToSecods (ascii "0A") (ascii "02") = (0, some e)) ∧
      (∃ w e, Atoi (ascii "0A") = (w, some e) ∧
        hoursAndMinutesToSecods (ascii "02") (ascii "0A") = (0, some e)) :=
  ⟨(((hoursAndMinutesToSecods_spec (ascii "02") (ascii "02")).1 (by decide) (by decide)).2
      (by decide)).trans (by decide),
    (hoursAndMinutesToSecods_spec (ascii "0A") (ascii "02")).2.1 (by decide),
    (hoursAndMinutesToSecods_spec (ascii "02") (ascii "0A")).2.2 (by decide) (by decide)⟩

/-- What a parser returns when it hands the texts `hours` and `minutes` to the conversion
and one of them does not convert: 0 seconds and the error that wraps the error of the
conversion, with its message. -/
theorem conversion_error_of_fields (k : SyntaxKind) (x hours minutes : GoString)
    (hf : k.fields x = some (hours, minutes))
    (hn : ¬ isConvertible hours ∨ ¬ isConvertible minutes) :
    ∃ ne field w e, (field = hours ∨ field = minutes) ∧ Atoi field = (w, some ne) ∧
      k.parse x = some (0, some e) ∧
      ∀ quote, e.Error quote = ascii "invalid UTC offset " ++ x ++ ascii ", " ++ ne.Error quote ∧
        ne.Error quote =
          ascii "strconv.Atoi: parsing " ++ quote field ++ ascii ": " ++ ne.Err.Error := by
  obtain ⟨ne, field, w, hfield, hw, hres⟩ := hoursAndMinutesToSecods_error hours minutes hn
  refine ⟨ne, field, w, Errorf "invalid UTC offset %v, %v" [.str x, .err ne], hfield, hw, ?_,
    fun quote => ⟨conversion_message quote x ne,
      atoi_error_message quote field ne (Atoi_error_form field w ne hw)⟩⟩
  cases ho : stripUtcPrefix x with
  | none => simp [SyntaxKind.fields, ho] at hf
  | some offset =>
    cases hr : stripSignPrefix offset with
    | none => simp [SyntaxKind.fields, ho, hr] at hf
    | some p =>
      obtain ⟨rest, direction⟩ := p
      cases k
      · simp only [SyntaxKind.fields, ho, hr] at hf
        simp only [SyntaxKind.parse, parseColonSyntax, ho, hr]
        rcases hs : Split rest 58 with _ | ⟨h₁, _ | ⟨m₁, tl⟩⟩
        · simp [hs] at hf
        · simp [hs] at hf
        · simp only [hs, Option.some.injEq, Prod.mk.injEq] at hf
          obtain ⟨rfl, rfl⟩ := hf
          simp only [hres]
      · simp only [SyntaxKind.fields, ho, hr] at hf
        simp only [SyntaxKind.parse, parseHourMinuteSyntax, ho, hr]
        by_cases hlen : rest.length < 2
        · simp [hlen] at hf
        · simp only [if_neg hlen, Option.some.injEq, Prod.mk.injEq] at hf
          obtain ⟨rfl, rfl⟩ := hf
          simp only [if_neg hlen, hres]
      · simp only [SyntaxKind.fields, ho, hr, Option.some.injEq, Prod.mk.injEq] at hf
        obtain ⟨rfl, rfl⟩ := hf
        simp only [SyntaxKind.parse, parseHourSyntax, ho, hr, hres]

/-- A parser that does not panic gets as far as the conversion: it hands an hours text
and a minutes text to `hoursAndMinutesToSecods`. -/
theorem fields_of_no_panic (k : SyntaxKind) (x : GoString) (hp : ∃ r, k.parse x = some r) :
    ∃ hours minutes, k.fields x = some (hours, minutes) := by
  obtain ⟨r, hr⟩ := hp
  cases ho : stripUtcPrefix x with
  | none =>
    cases k <;>
      simp [SyntaxKind.parse, parseColonSyntax, parseHourMinuteSyntax, parseHourSyntax, ho] at hr
  | some offset =>
    cases hs : stripSignPrefix offset with
    | none =>
      cases k <;>
        simp [SyntaxKind.parse, parseColonSyntax, parseHourMinuteSyntax, parseHourSyntax, ho,
          hs] at hr
    | some q =>
      obtain ⟨rest, direction⟩ := q
      cases k
      · rcases hsp : Split rest 58 with _ | ⟨h₁, _ | ⟨m₁, tl⟩⟩
        · simp [SyntaxKind.parse, parseColonSyntax, ho, hs, hsp] at hr
        · simp [SyntaxKind.parse, parseColonSyntax, ho, hs, hsp] at hr
        · exact ⟨h₁, m₁, by simp only [SyntaxKind.fields, ho, hs, hsp]⟩
      · by_cases hlen : rest.length < 2
        · simp [SyntaxKind.parse, parseHourMinuteSyntax, ho, hs, hlen] at hr
        · exact ⟨rest.take 2, rest.drop 2,
            by simp only [SyntaxKind.fields, ho, hs, if_neg hlen]⟩
      · exact ⟨rest, ascii "0", by simp only [SyntaxKind.fields, ho, hs]⟩

set_option maxRecDepth 4096 in
/-- Claim C17, as stated, fails: in "+A" the text after the sign, which `parseHourSyntax`
would convert as the hours, is "A" and is no integer, and `parseHourSyntax` called on "+A"
does not return 0 and an error: it panics, the slice `utcOffset[0:3]` of `stripUtcPrefix`
being out of range on two bytes. -/
theorem parser_panics_before_conversion :
    stripSignPrefix (ascii "+A") = some (ascii "A", 1) ∧
      ¬ isConvertible (ascii "A") ∧
      stripUtcPrefix (ascii "+A") = none ∧
      parseHourSyntax (ascii "+A") = none ∧
      ¬ ∃ e, parseHourSyntax (ascii "+A") = some (0, some e) := by
  refine ⟨by decide, by decide, by decide, by decide, ?_⟩
  rintro ⟨e, he⟩
  have hnone : parseHourSyntax (ascii "+A") = none := by decide
  rw [hnone] at he
  exact Option.noConfusion he

/-- Claim C17, amended. When a parser of a syntax is called on a text on which it does not
panic, it has handed an hours and a minutes text to the conversion; when one of these
does not convert to an `int`, the parser returns 0 seconds and an error whose message is
"invalid UTC offset ", the text itself with its prefix and sign, ", " and the message of
the error of the conversion, which is "strconv.Atoi: parsing ", the quoted field, ": "
and the message of the kind of error. -/
theorem parser_conversion_error (k : SyntaxKind) (x : GoString)
    (hp : ∃ r, k.parse x = some r) :
    ∃ hours minutes, k.fields x = some (hours, minutes) ∧
      (¬ isConvertible hours ∨ ¬ isConvertible minutes →
        ∃ ne field w e, (field = hours ∨ field = minutes) ∧ Atoi field = (w, some ne) ∧
          k.parse x = some (0, some e) ∧
          ∀ quote,
            e.Error quote = ascii "invalid UTC offset " ++ x ++ ascii ", " ++ ne.Error quote ∧
              ne.Error quote =
                ascii "strconv.Atoi: parsing " ++ quote field ++ ascii ": " ++ ne.Err.Error) := by
  obtain ⟨hours, minutes, hf⟩ := fields_of_no_panic k x hp
  exact ⟨hours, minutes, hf, conversion_error_of_fields k x hours minutes hf⟩

set_option maxRecDepth 4096 in
theorem parser_conversion_error_witness :
    ∃ e, parseColonSyntax (ascii "UTC+AA:02") = some (0, some e) ∧
      e.Error quotePrintable =
        ascii "invalid UTC offset UTC+AA:02, strconv.Atoi: parsing \"AA\": invalid syntax" := by
  obtain ⟨hours, minutes, hf, himp⟩ :=
    parser_conversion_error SyntaxKind.colon (ascii "UTC+AA:02")
      ⟨(0, some (Errorf "invalid UTC offset %v, %v"
        [.str (ascii "UTC+AA:02"), .err (syntaxError (ascii "AA"))])), by decide⟩
  have hfd : SyntaxKind.colon.fields (ascii "UTC+AA:02") = some (ascii "AA", ascii "02") := by
    decide
  rw [hfd] at hf
  simp only [Option.some.injEq, Prod.mk.injEq] at hf
  obtain ⟨rfl, rfl⟩ := hf
  obtain ⟨ne, field, w, e, hfield, hw, hparse, hmsg⟩ := himp (Or.inl (by decide))
  refine ⟨e, hparse, ?_⟩
  have hfield' : field = ascii "AA" := by
    rcases hfield with rfl | rfl
    · rfl
    · have h02 : Atoi (ascii "02") = (2, none) := by decide
      rw [h02] at hw
      simp at hw
  subst hfield'
  have hAA : Atoi (ascii "AA") = (0, some (syntaxError (ascii "AA"))) := by decide
  rw [hAA] at hw
  simp only [Prod.mk.injEq, Option.some.injEq] at hw
  obtain ⟨-, rfl⟩ := hw
  rw [(hmsg quotePrintable).1, (hmsg quotePrintable).2]
  decide

end UtcOffset
